import Mathlib

/- Verification of the tool-life shop-floor application: JSON store
normalization, the tabular month store, the approval workflow, and the
action/NCR ledger, shallowly embedded from the Python sources. -/

set_option autoImplicit false

namespace ToolLife

/-- A JSON-decoded Python value: None, bool, number, str, list, dict.
Dicts are insertion-ordered association lists, as in Python. Numbers are
modelled as integers; no claim performs float arithmetic, the only numeric
literal involved is the cost default 0.0. -/
inductive J where
  | null : J
  | bool : Bool → J
  | num : Int → J
  | str : String → J
  | arr : List J → J
  | obj : List (String × J) → J
deriving Repr

mutual

/-- Structural equality of JSON values, mirroring Python ==. -/
def jeq : J → J → Bool
  | .null, .null => true
  | .bool a, .bool b => a == b
  | .num a, .num b => a == b
  | .str a, .str b => a == b
  | .arr a, .arr b => jeqList a b
  | .obj a, .obj b => jeqKvs a b
  | _, _ => false

/-- Elementwise equality of JSON lists. -/
def jeqList : List J → List J → Bool
  | [], [] => true
  | x :: xs, y :: ys => jeq x y && jeqList xs ys
  | _, _ => false

/-- Entrywise equality of JSON object entry lists. -/
def jeqKvs : List (String × J) → List (String × J) → Bool
  | [], [] => true
  | (k1, v1) :: xs, (k2, v2) :: ys => k1 == k2 && jeq v1 v2 && jeqKvs xs ys
  | _, _ => false

end

mutual

theorem jeq_refl : ∀ a : J, jeq a a = true
  | .null => rfl
  | .bool a => by simp [jeq]
  | .num a => by simp [jeq]
  | .str a => by simp [jeq]
  | .arr xs => by simp [jeq, jeqList_refl xs]
  | .obj kvs => by simp [jeq, jeqKvs_refl kvs]

theorem jeqList_refl : ∀ xs : List J, jeqList xs xs = true
  | [] => rfl
  | x :: xs => by simp [jeqList, jeq_refl x, jeqList_refl xs]

theorem jeqKvs_refl : ∀ kvs : List (String × J), jeqKvs kvs kvs = true
  | [] => rfl
  | (k, v) :: kvs => by simp [jeqKvs, jeq_refl v, jeqKvs_refl kvs]

end

mutual

theorem eq_of_jeq : ∀ a b : J, jeq a b = true → a = b
  | .null, .null, _ => rfl
  | .bool a, .bool b, h => by simpa [jeq] using h
  | .num a, .num b, h => by simpa [jeq] using h
  | .str a, .str b, h => by simpa [jeq] using h
  | .arr xs, .arr ys, h => by
    rw [eq_of_jeqList xs ys (by simpa [jeq] using h)]
  | .obj xs, .obj ys, h => by
    rw [eq_of_jeqKvs xs ys (by simpa [jeq] using h)]
  | .null, .bool _, h => by simp [jeq] at h
  | .null, .num _, h => by simp [jeq] at h
  | .null, .str _, h => by simp [jeq] at h
  | .null, .arr _, h => by simp [jeq] at h
  | .null, .obj _, h => by simp [jeq] at h
  | .bool _, .null, h => by simp [jeq] at h
  | .bool _, .num _, h => by simp [jeq] at h
  | .bool _, .str _, h => by simp [jeq] at h
  | .bool _, .arr _, h => by simp [jeq] at h
  | .bool _, .obj _, h => by simp [jeq] at h
  | .num _, .null, h => by simp [jeq] at h
  | .num _, .bool _, h => by simp [jeq] at h
  | .num _, .str _, h => by simp [jeq] at h
  | .num _, .arr _, h => by simp [jeq] at h
  | .num _, .obj _, h => by simp [jeq] at h
  | .str _, .null, h => by simp [jeq] at h
  | .str _, .bool _, h => by simp [jeq] at h
  | .str _, .num _, h => by simp [jeq] at h
  | .str _, .arr _, h => by simp [jeq] at h
  | .str _, .obj _, h => by simp [jeq] at h
  | .arr _, .null, h => by simp [jeq] at h
  | .arr _, .bool _, h => by simp [jeq] at h
  | .arr _, .num _, h => by simp [jeq] at h
  | .arr _, .str _, h => by simp [jeq] at h
  | .arr _, .obj _, h => by simp [jeq] at h
  | .obj _, .null, h => by simp [jeq] at h
  | .obj _, .bool _, h => by simp [jeq] at h
  | .obj _, .num _, h => by simp [jeq] at h
  | .obj _, .str _, h => by simp [jeq] at h
  | .obj _, .arr _, h => by simp [jeq] at h

theorem eq_of_jeqList : ∀ xs ys : List J, jeqList xs ys = true → xs = ys
  | [], [], _ => rfl
  | [], _ :: _, h => by simp [jeqList] at h
  | _ :: _, [], h => by simp [jeqList] at h
  | x :: xs, y :: ys, h => by
    have h1 : jeq x y = true ∧ jeqList xs ys = true := by simpa [jeqList] using h
    rw [eq_of_jeq x y h1.1, eq_of_jeqList xs ys h1.2]

theorem eq_of_jeqKvs : ∀ xs ys : List (String × J), jeqKvs xs ys = true → xs = ys
  | [], [], _ => rfl
  | [], _ :: _, h => by simp [jeqKvs] at h
  | _ :: _, [], h => by simp [jeqKvs] at h
  | (k1, v1) :: xs, (k2, v2) :: ys, h => by
    have h1 : k1 = k2 ∧ jeq v1 v2 = true ∧ jeqKvs xs ys = true := by
      simpa [jeqKvs, Bool.and_assoc, and_assoc] using h
    rw [h1.1, eq_of_jeq v1 v2 h1.2.1, eq_of_jeqKvs xs ys h1.2.2]

end

theorem jeq_eq_true_iff (a b : J) : jeq a b = true ↔ a = b := by
  constructor
  · exact eq_of_jeq a b
  · intro h
    subst h
    exact jeq_refl a

instance : DecidableEq J := fun a b => decidable_of_iff _ (jeq_eq_true_iff a b)

/-- Python truthiness of a JSON value. -/
def J.truthy : J → Bool
  | .null => false
  | .bool b => b
  | .num n => n != 0
  | .str s => s != ""
  | .arr xs => !xs.isEmpty
  | .obj kvs => !kvs.isEmpty

/-- First-occurrence lookup in an insertion-ordered association list,
mirroring Python dict key access. -/
def alookup {α : Type} : List (String × α) → String → Option α
  | [], _ => none
  | (k1, v) :: rest, k => if k1 = k then some v else alookup rest k

/-- Replace the value at an existing key in place, else append, mirroring
Python dict item assignment. -/
def aset {α : Type} : List (String × α) → String → α → List (String × α)
  | [], k, v => [(k, v)]
  | (k1, v1) :: rest, k, v =>
    if k1 = k then (k1, v) :: rest else (k1, v1) :: aset rest k v

/-- Python dict.get with default None. -/
def dgetJ (d : List (String × J)) (k : String) : J := (alookup d k).getD J.null

/-- Python dict.setdefault: insert at the end only when the key is absent. -/
def dsetdefault (d : List (String × J)) (k : String) (v : J) : List (String × J) :=
  if (alookup d k).isSome then d else d ++ [(k, v)]

/-- Python `a or b` on JSON values. -/
def orJ (a b : J) : J := if a.truthy then a else b

/-- The whitespace stripped by Python str.strip (ASCII range). -/
def isSpaceChar (c : Char) : Bool :=
  c == ' ' || c == '\t' || c == '\n' || c == '\r' || c == '\x0b' || c == '\x0c'

/-- Python str.strip on the character list. -/
def pyStripList (l : List Char) : List Char :=
  ((l.dropWhile isSpaceChar).reverse.dropWhile isSpaceChar).reverse

/-- Python str.strip. -/
def pyStrip (s : String) : String := String.mk (pyStripList s.data)

/-- Python x.strip() applied to a JSON value: succeeds only on strings,
raising (None) otherwise, as the attribute access would. -/
def jStrip : J → Option String
  | .str s => some (pyStrip s)
  | _ => none

/-- Splitting a character list at every comma, mirroring Python str.split. -/
def splitCommaList : List Char → List (List Char)
  | [] => [[]]
  | c :: rest =>
    match splitCommaList rest with
    | [] => [[]]
    | g :: gs => if c = ',' then [] :: g :: gs else (c :: g) :: gs

/-- Python s.split on a comma separator. -/
def pySplitComma (s : String) : List String := (splitCommaList s.data).map String.mk

/-- The association list of a JSON object, empty for other values. -/
def objKvs : J → List (String × J)
  | .obj kvs => kvs
  | _ => []

/-- Field access on a JSON object value, None-defaulting. -/
def jobjGet (v : J) (k : String) : J := dgetJ (objKvs v) k

/-- Whether a JSON value is a dict. -/
def isObjJ : J → Bool
  | .obj _ => true
  | _ => false

/-- Whether a JSON value is a number. -/
def isNumJ : J → Bool
  | .num _ => true
  | _ => false

/- Normalizers from app/ui_master_data.py. -/

/-- Embeds _normalize_tool_store: accept a canonical wrapped tools dict or a
bare dict assumed to be tool entries, wrapping the latter. -/
def normalizeTools (store : J) : J :=
  match store with
  | .obj kvs =>
    match alookup kvs "tools" with
    | some (.obj _) => .obj kvs
    | _ => .obj [("tools", .obj kvs)]
  | _ => .obj [("tools", .obj [])]

/-- The entry-list pipeline of _normalize_cost_store: setdefault the by-part
map, discard it if it is not a dict, then setdefault the scalar default. -/
def costPipeline (kvs0 : List (String × J)) : List (String × J) :=
  let k1 := dsetdefault kvs0 "scrap_cost_by_part" (.obj [])
  let k2 := match alookup k1 "scrap_cost_by_part" with
    | some (.obj _) => k1
    | _ => aset k1 "scrap_cost_by_part" (.obj [])
  dsetdefault k2 "scrap_cost_default" (.num 0)

/-- Embeds _normalize_cost_store: ensure scrap_cost_by_part is a dict and
scrap_cost_default exists (the Python literal 0.0 is the number zero). -/
def normalizeCost (store : J) : J :=
  .obj (costPipeline (match store with
    | .obj kvs => kvs
    | _ => []))

/-- Embeds the users store load normalization (get_users_map and the admin
screen both use load_json followed by a Python `or` with an empty dict). -/
def normalizeUsers (store : J) : J := if store.truthy then store else .obj []

/-- Embeds the per-item cleaning loop of _normalize_parts_store (the later,
effective definition). A bare string is promoted to an object; a dict has its
identifying field taken through the alias precedence chain and stripped, and a
comma-separated lines string is split; anything else is skipped (inner None).
The outer None is a raised AttributeError from calling strip on a truthy
non-string field. -/
def cleanPartItem : J → Option (Option J)
  | .str s =>
    some (some (.obj [("part_number", .str (pyStrip s)), ("name", .str ""), ("lines", .arr [])]))
  | .obj ikvs =>
    (jStrip (orJ (dgetJ ikvs "part_number")
      (orJ (dgetJ ikvs "pn") (orJ (dgetJ ikvs "part") (.str ""))))).bind fun pn =>
    (jStrip (orJ (dgetJ ikvs "name") (.str ""))).bind fun nm =>
    let ln0 := orJ (dgetJ ikvs "lines") (.arr [])
    let ln1 := match ln0 with
      | .str s => J.arr ((pySplitComma s).filterMap
          (fun x => if pyStrip x = "" then none else some (J.str (pyStrip x))))
      | v => v
    let ln2 := match ln1 with
      | .arr xs => J.arr xs
      | _ => .arr []
    some (some (.obj [("part_number", .str pn), ("name", .str nm), ("lines", ln2)]))
  | _ => some none

/-- The cleaning loop over the parts list, propagating a raised exception. -/
def cleanParts : List J → Option (List J)
  | [] => some []
  | item :: rest =>
    (cleanPartItem item).bind fun c =>
    (cleanParts rest).bind fun r =>
    match c with
    | some p => some (p :: r)
    | none => some r

/-- Embeds _normalize_parts_store (the later, effective definition): wrap a
bare list, accept the data legacy key, clean every entry, drop entries whose
part_number is empty. None is a raised exception. -/
def normalizeParts (store : J) : Option J :=
  let store1 := match store with
    | .arr xs => J.obj [("parts", .arr xs)]
    | s => s
  match store1 with
  | .obj kvs0 =>
    let kvs := match alookup kvs0 "parts" with
      | some _ => kvs0
      | none => match alookup kvs0 "data" with
        | some (.arr xs) => [("parts", J.arr xs)]
        | _ => kvs0
    let parts := match (alookup kvs "parts").getD (.arr []) with
      | .arr xs => xs
      | _ => []
    (cleanParts parts).bind fun cleaned =>
      some (.obj [("parts",
        .arr (cleaned.filter (fun p => (dgetJ (objKvs p) "part_number").truthy)))])
  | _ => some (.obj [("parts", .arr [])])

/- The action/NCR ledger from app/action_store.py. Wall-clock values are
passed in explicitly: iso is now_iso() and idTs is the timestamp segment used
by new_id, so a generated id is the given prefix, a dash, and idTs. -/

/-- A Python dict with JSON values, insertion-ordered. -/
abbrev Dict := List (String × J)

/-- Python double-splat merge of new fields over old, as in the dict literal
built from old then new: old keys keep their positions with new values where
present, then new-only keys follow in their own order. -/
def dmerge (a b : Dict) : Dict :=
  (a.map (fun kv => match alookup b kv.1 with
    | some w => (kv.1, w)
    | none => kv))
  ++ b.filter (fun kv => (alookup a kv.1).isNone)

/-- The in-place defaulting at the top of upsert_action: generate an id when
the existing one is falsy, then setdefault the six remaining fields. -/
def withActionDefaults (action : Dict) (iso idTs : String) : Dict :=
  let a := if (dgetJ action "action_id").truthy then action
    else aset action "action_id" (.str ("A-" ++ idTs))
  let a := dsetdefault a "type" (.str "Action")
  let a := dsetdefault a "severity" (.str "Medium")
  let a := dsetdefault a "status" (.str "Open")
  let a := dsetdefault a "created_at" (.str iso)
  let a := dsetdefault a "notes" (.str "")
  dsetdefault a "related" (.obj [])

/-- The enumerate-and-break loop shared by upsert_action and upsert_ncr: the
first entry whose id equals the record id is replaced by the merged entry with
updated_at stamped; the flag reports whether a match was found. -/
def upsertEntries (idKey : String) (rec : Dict) (iso : String) : List Dict → List Dict × Bool
  | [] => ([], false)
  | a :: rest =>
    if dgetJ a idKey = dgetJ rec idKey then
      (aset (dmerge a rec) "updated_at" (.str iso) :: rest, true)
    else
      let p := upsertEntries idKey rec iso rest
      (a :: p.1, p.2)

/-- Embeds upsert_action: default the record, replace the first match in
place, else stamp updated_at on the record and append it. Returns the record
as Python returns it, plus the new stored list. -/
def upsert_action (action : Dict) (actions : List Dict) (iso idTs : String) :
    Dict × List Dict :=
  let a := withActionDefaults action iso idTs
  let p := upsertEntries "action_id" a iso actions
  if p.2 then (a, p.1)
  else (aset a "updated_at" (.str iso), p.1 ++ [aset a "updated_at" (.str iso)])

/-- The in-place defaulting at the top of upsert_ncr. -/
def withNcrDefaults (ncr : Dict) (iso idTs : String) : Dict :=
  let n := if (dgetJ ncr "ncr_id").truthy then ncr
    else aset ncr "ncr_id" (.str ("NCR-" ++ idTs))
  let n := dsetdefault n "status" (.str "Open")
  dsetdefault n "created_at" (.str iso)

/-- Embeds upsert_ncr, analogously to upsert_action. -/
def upsert_ncr (ncr : Dict) (ncrs : List Dict) (iso idTs : String) : Dict × List Dict :=
  let n := withNcrDefaults ncr iso idTs
  let p := upsertEntries "ncr_id" n iso ncrs
  if p.2 then (n, p.1)
  else (aset n "updated_at" (.str iso), p.1 ++ [aset n "updated_at" (.str iso)])

/-- The string rendering used by the title f-string; only ever applied to a
string id here. -/
def jStrVal : J → String
  | .str s => s
  | _ => ""

/-- The NCR dict literal built inside create_ncr_and_action. -/
def ncrSeed (part_number line owner description created_by related_entry_id : String) :
    Dict :=
  [("status", .str "Open"), ("part_number", .str part_number),
   ("line", .str line), ("owner", .str owner), ("description", .str description),
   ("created_by", .str created_by), ("related_entry_id", .str related_entry_id)]

/-- The Action dict literal built inside create_ncr_and_action; ncrId is the
id of the NCR just created. -/
def actionSeed (title severity owner created_by due_date line part_number
    related_entry_id description : String) (ncrId : J) : Dict :=
  [("type", .str "NCR"),
   ("title", .str (if title ≠ "" then title else "NCR " ++ jStrVal ncrId)),
   ("severity", .str severity), ("status", .str "Open"), ("owner", .str owner),
   ("created_by", .str created_by), ("due_date", .str due_date), ("line", .str line),
   ("part_number", .str part_number),
   ("related", .obj [("ncr_id", ncrId), ("entry_id", .str related_entry_id)]),
   ("notes", .str description)]

/-- Embeds create_ncr_and_action: create an NCR, create the linked Action
carrying the NCR id in its related field, then rewrite the NCR with the
action id. Returns the pair as Python does, plus both stored lists. -/
def create_ncr_and_action (title description severity owner created_by line
    part_number due_date related_entry_id : String) (ncrs actions : List Dict)
    (iso idTs : String) : (Dict × Dict) × List Dict × List Dict :=
  let r1 := upsert_ncr
    (ncrSeed part_number line owner description created_by related_entry_id) ncrs iso idTs
  let ncr := r1.1
  let r2 := upsert_action (actionSeed title severity owner created_by due_date line
    part_number related_entry_id description (dgetJ ncr "ncr_id")) actions iso idTs
  let action := r2.1
  let r3 := upsert_ncr (aset ncr "action_id" (dgetJ action "action_id")) r1.2 iso idTs
  ((r3.1, action), r3.2, r2.2)

/- The tabular month store from app/storage.py, app/ui_toolchanger.py,
app/ui_quality.py and app/ui_leader.py. A spreadsheet is modelled as its
column list plus one association list per row; writing and re-reading a file
is content-preserving in this model. -/

/-- A cell of a month table: a string, an integer, a non-integer number kept
abstract as its originating conversion (costs are never inspected by any
claim), or the NaN that pandas uses for missing values. -/
inductive Val where
  | nan : Val
  | str : String → Val
  | int : Int → Val
  | float : Int → Val
deriving Repr, DecidableEq

/-- One row, keyed by the table's column names in order. -/
abbrev Row := List (String × Val)

/-- A table: ordered column names and rows. -/
structure DF where
  cols : List String
  rows : List Row
deriving Repr, DecidableEq

/-- Cell access inside a row; absent keys read as NaN as a pandas reindex
would fill them. -/
def cellD (r : Row) (c : String) : Val := (alookup r c).getD Val.nan

/-- Embeds ensure_df_schema: add each missing canonical column filled with the
empty string, then reorder to canonical columns first and extras after. -/
def ensure_df_schema (C : List String) (df : DF) : DF :=
  let missing := C.filter (fun c => ¬ df.cols.contains c)
  let cols1 := df.cols ++ missing
  let rows1 := df.rows.map (fun r => r ++ missing.map (fun c => (c, Val.str "")))
  let extras := cols1.filter (fun c => ¬ C.contains c)
  let newCols := C ++ extras
  ⟨newCols, rows1.map (fun r => newCols.map (fun c => (c, cellD r c)))⟩

/-- On-disk content of a month file: a parseable table or unreadable bytes. -/
inductive FileData where
  | table : DF → FileData
  | unreadable : FileData
deriving Repr, DecidableEq

/-- The data directory: paths mapped to file contents. -/
abbrev FS := List (String × FileData)

/-- Embeds ensure_excel_file: create an empty-schema file when absent, rewrite
a parseable file with the schema enforced, and for an unreadable file write a
fresh empty-schema file at the timestamped rescue path, leaving the original
untouched. -/
def ensure_excel_file (C : List String) (path rescue : String) (fs : FS) : FS :=
  match alookup fs path with
  | none => aset fs path (.table ⟨C, []⟩)
  | some (.table df) => aset fs path (.table (ensure_df_schema C df))
  | some .unreadable => aset fs rescue (.table ⟨C, []⟩)

/-- Embeds get_df: run ensure_excel_file, then read the file at the resolved
path again and enforce the schema. none models the read_excel exception
propagating out of get_df when the file at the path is still unreadable. -/
def get_df (C : List String) (path rescue : String) (fs : FS) :
    Option (DF × String) × FS :=
  let fs1 := ensure_excel_file C path rescue fs
  match alookup fs1 path with
  | some (.table df) => (some (ensure_df_schema C df, path), fs1)
  | _ => (none, fs1)

/-- Embeds save_df: enforce the schema and write the table at the path. -/
def save_df (C : List String) (path : String) (df : DF) (fs : FS) : FS :=
  aset fs path (.table (ensure_df_schema C df))

/-- Modelled from the spec: the canonical column list COLUMNS is defined in
app/config.py, which is not among the provided sources. Section 6 of the
specification fixes the order (identity, date/time, shift, line, machine,
part number, tool number, reason, downtime, cost, submitting user, defect
fields, quality sub-record, leader sub-record, serials); the concrete names
are the ones used by the entry workflow row construction in ui_toolchanger. -/
def COLUMNS : List String :=
  ["ID", "Date", "Time", "Shift", "Line", "Machine", "Part_Number", "Tool_Num",
   "Reason", "Downtime_Mins", "Cost", "Tool_Changer", "Defects_Present", "Defect_Qty",
   "Sort_Done", "Defect_Reason", "Quality_Verified", "Quality_User", "Quality_Time",
   "Leader_Sign", "Leader_User", "Leader_Time", "Serial_Numbers"]

/-- The new_row dict literal of ToolChangerUI.submit. The id, date and time
strings and the cost looked up from the tool config are passed in. -/
def submit_new_row (id date time shift line machine part tool reason : String)
    (downtime : Int) (cost : Val) (user : String) (defectVar : Bool) (defectQty : Int)
    (sortVar : Bool) (defectReason : String) : Row :=
  [("ID", .str id), ("Date", .str date), ("Time", .str time), ("Shift", .str shift),
   ("Line", .str line), ("Machine", .str machine), ("Part_Number", .str part),
   ("Tool_Num", .str tool), ("Reason", .str reason), ("Downtime_Mins", .int downtime),
   ("Cost", cost), ("Tool_Changer", .str user),
   ("Defects_Present", .str (if defectVar then "Yes" else "No")),
   ("Defect_Qty", .int defectQty),
   ("Sort_Done", .str (if sortVar then "Yes" else "No")),
   ("Defect_Reason", .str (if defectVar then pyStrip defectReason else "")),
   ("Quality_Verified", .str "Pending"), ("Quality_User", .str ""),
   ("Quality_Time", .str ""),
   ("Leader_Sign", .str "Pending"), ("Leader_User", .str ""), ("Leader_Time", .str ""),
   ("Serial_Numbers", .str "")]

/-- Embeds pd.concat of a table with a one-row table, ignore_index: the column
union keeps the table's columns first, and missing cells fill with NaN. -/
def concatRow (df : DF) (r : Row) : DF :=
  let newCols := df.cols ++ (r.map Prod.fst).filter (fun k => ¬ df.cols.contains k)
  ⟨newCols,
   df.rows.map (fun q => newCols.map (fun c => (c, cellD q c))) ++
     [newCols.map (fun c => (c, cellD r c))]⟩

/-- Embeds the persistence step of ToolChangerUI.submit: concat the new row
onto the loaded table and save it through save_df's schema enforcement. The
resulting table is what the saved month file holds. -/
def submit_saved_df (C : List String) (df : DF) (row : Row) : DF :=
  ensure_df_schema C (concatRow df row)

/-- The string rendering of a cell under astype(str), as used for ID matching;
pandas renders NaN as the string nan. -/
def pyStr : Val → String
  | .nan => "nan"
  | .str s => s
  | .int n => toString n
  | .float n => toString n

/-- One row matches the selected id when its ID cell, rendered as a string,
equals the selection (both sides go through str in the source). -/
def rowMatches (selId : String) (r : Row) : Bool := pyStr (cellD r "ID") == selId

/-- Apply the column updates to the cells a row already has. -/
def applyUpds (upds : List (String × Val)) (r : Row) : Row :=
  r.map (fun kv => match alookup upds kv.1 with
    | some w => (kv.1, w)
    | none => kv)

/-- Embeds the df.loc block assignment over all index positions matching the
predicate: existing columns are overwritten on matching rows; a column not yet
present is appended for every row, NaN-filled on non-matching rows. -/
def locSet (df : DF) (p : Row → Bool) (upds : List (String × Val)) : DF :=
  let newCols := (upds.map Prod.fst).filter (fun k => ¬ df.cols.contains k)
  ⟨df.cols ++ newCols,
   df.rows.map (fun r =>
     if p r then applyUpds upds r ++ newCols.map (fun c => (c, cellD upds c))
     else r ++ newCols.map (fun c => (c, Val.nan)))⟩

/-- A wall-clock instant as the six strftime components. -/
structure DateTime where
  year : Nat
  month : Nat
  day : Nat
  hour : Nat
  minute : Nat
  second : Nat
deriving Repr, DecidableEq

/-- The decimal digit character for a value below ten. -/
def digitChar (d : Nat) : Char := Char.ofNat (48 + d)

/-- Fixed-width zero-padded decimal digits, most significant first. -/
def padDigits (w n : Nat) : List Char :=
  (List.range w).reverse.map (fun i => digitChar (n / 10 ^ i % 10))

/-- Embeds strftime with the timestamp format used by the approval stamps:
four-digit year, then dash, month, dash, day, space, and colon-separated
hour, minute, second, each two digits zero-padded. -/
def fmtTs (t : DateTime) : String :=
  String.mk (padDigits 4 t.year ++ ('-' :: padDigits 2 t.month) ++
    ('-' :: padDigits 2 t.day) ++ (' ' :: padDigits 2 t.hour) ++
    (':' :: padDigits 2 t.minute) ++ (':' :: padDigits 2 t.second))

/-- Whether a character is a decimal digit. -/
def isDigitChar (c : Char) : Bool := 48 ≤ c.toNat && c.toNat ≤ 57

/-- The numeric value of a fixed-width digit string. -/
def digitsToNat (cs : List Char) : Nat := cs.foldl (fun a c => a * 10 + (c.toNat - 48)) 0

/-- A parser for the stamp timestamp format, witnessing parseability. -/
def parseTs (s : String) : Option DateTime :=
  match s.data with
  | [y1, y2, y3, y4, c1, m1, m2, c2, d1, d2, c3, h1, h2, c4, n1, n2, c5, s1, s2] =>
    if ([y1, y2, y3, y4, m1, m2, d1, d2, h1, h2, n1, n2, s1, s2].all isDigitChar) &&
        (c1 == '-') && (c2 == '-') && (c3 == ' ') && (c4 == ':') && (c5 == ':') then
      some ⟨digitsToNat [y1, y2, y3, y4], digitsToNat [m1, m2], digitsToNat [d1, d2],
        digitsToNat [h1, h2], digitsToNat [n1, n2], digitsToNat [s1, s2]⟩
    else none
  | _ => none

/-- Embeds QualityUI.verify_selected from the freshly loaded table onward: if
no row matches the selected id the operation reports not found and writes
nothing (none); otherwise every matching row gets Quality_Verified Yes, the
acting user, and the formatted timestamp, and the table goes through save_df's
schema enforcement. The returned table is the saved file content. -/
def verify_selected (C : List String) (selId user : String) (t : DateTime) (df : DF) :
    Option DF :=
  if df.rows.any (rowMatches selId) then
    some (ensure_df_schema C (locSet df (rowMatches selId)
      [("Quality_Verified", .str "Yes"), ("Quality_User", .str user),
       ("Quality_Time", .str (fmtTs t))]))
  else none

/-- Embeds LeaderUI.sign_selected, identically shaped on the leader fields. -/
def sign_selected (C : List String) (selId user : String) (t : DateTime) (df : DF) :
    Option DF :=
  if df.rows.any (rowMatches selId) then
    some (ensure_df_schema C (locSet df (rowMatches selId)
      [("Leader_Sign", .str "Yes"), ("Leader_User", .str user),
       ("Leader_Time", .str (fmtTs t))]))
  else none

/-- Well-formedness of a table: every row is keyed exactly by the column list
in order, as any table read from a spreadsheet is. -/
def WF (df : DF) : Prop := ∀ r ∈ df.rows, r.map Prod.fst = df.cols

/- Basic lemmas about the helpers. -/

@[simp] theorem alookup_nil {α : Type} (k : String) : alookup ([] : List (String × α)) k = none := rfl

@[simp] theorem alookup_cons {α : Type} (k1 k : String) (v : α) (rest : List (String × α)) :
    alookup ((k1, v) :: rest) k = if k1 = k then some v else alookup rest k := rfl

theorem alookup_append {α : Type} (l1 l2 : List (String × α)) (k : String) :
    alookup (l1 ++ l2) k = ((alookup l1 k).rec (alookup l2 k) (fun v => some v)) := by
  induction l1 with
  | nil => simp
  | cons kv rest ih =>
    obtain ⟨k1, v⟩ := kv
    by_cases h : k1 = k <;> simp [h, ih]

theorem alookup_append_of_isSome {α : Type} (l1 l2 : List (String × α)) (k : String)
    (h : (alookup l1 k).isSome) : alookup (l1 ++ l2) k = alookup l1 k := by
  rw [alookup_append]
  obtain ⟨v, hv⟩ := Option.isSome_iff_exists.mp h
  rw [hv]

theorem alookup_append_of_eq_none {α : Type} (l1 l2 : List (String × α)) (k : String)
    (h : alookup l1 k = none) : alookup (l1 ++ l2) k = alookup l2 k := by
  rw [alookup_append, h]

theorem alookup_aset_self {α : Type} (d : List (String × α)) (k : String) (v : α) :
    alookup (aset d k v) k = some v := by
  induction d with
  | nil => simp [aset]
  | cons kv rest ih =>
    obtain ⟨k1, v1⟩ := kv
    by_cases h : k1 = k <;> simp [aset, h, ih]

theorem alookup_aset_ne {α : Type} (d : List (String × α)) (k k' : String) (v : α)
    (h : k ≠ k') : alookup (aset d k v) k' = alookup d k' := by
  induction d with
  | nil => simp [aset, h]
  | cons kv rest ih =>
    obtain ⟨k1, v1⟩ := kv
    by_cases h1 : k1 = k
    · subst h1
      simp [aset, h]
    · by_cases h2 : k1 = k'
      · subst h2
        have hkk : ¬ (k1 = k) := h1
        simp [aset, hkk]
      · simp [aset, h1, h2, ih]

theorem alookup_dsetdefault_self (d : List (String × J)) (k : String) (v : J) :
    alookup (dsetdefault d k v) k = some ((alookup d k).getD v) := by
  unfold dsetdefault
  cases h : alookup d k with
  | some x => simp [h]
  | none => simp [h, alookup_append_of_eq_none d [(k, v)] k h]

theorem alookup_dsetdefault_ne (d : List (String × J)) (k k' : String) (v : J)
    (h : k ≠ k') : alookup (dsetdefault d k v) k' = alookup d k' := by
  unfold dsetdefault
  cases hs : (alookup d k).isSome
  · simp only [hs, Bool.false_eq_true, if_false]
    cases h2 : alookup d k' with
    | some x => rw [alookup_append_of_isSome _ _ _ (by simp [h2]), h2]
    | none => rw [alookup_append_of_eq_none _ _ _ h2]; simp [h]
  · simp [hs]

theorem alookup_isSome_of_mem_keys {α : Type} (l : List (String × α)) (k : String)
    (h : k ∈ l.map Prod.fst) : (alookup l k).isSome := by
  induction l with
  | nil => simp at h
  | cons kv rest ih =>
    obtain ⟨k1, v1⟩ := kv
    by_cases h1 : k1 = k
    · simp [h1]
    · simp only [List.map_cons, List.mem_cons] at h
      rcases h with h | h

      · exact absurd h.symm h1
      · simp only [alookup_cons, h1, if_false]
        exact ih h

theorem alookup_eq_none_of_not_mem_keys {α : Type} (l : List (String × α)) (k : String)
    (h : k ∉ l.map Prod.fst) : alookup l k = none := by
  induction l with
  | nil => rfl
  | cons kv rest ih =>
    obtain ⟨k1, v1⟩ := kv
    simp only [List.map_cons, List.mem_cons, not_or] at h
    have hne : ¬ (k1 = k) := fun hh => h.1 hh.symm
    simp [hne, ih h.2]

theorem alookup_mapPairs {α : Type} (l : List String) (f : String → α) (k : String) :
    alookup (l.map (fun c => (c, f c))) k = if k ∈ l then some (f k) else none := by
  induction l with
  | nil => simp
  | cons c rest ih =>
    by_cases h : c = k
    · subst h
      simp
    · simp [h, ih, Ne.symm h]

/- Python strip is idempotent. -/

theorem dropWhile_dropWhile {α : Type} (p : α → Bool) (l : List α) :
    (l.dropWhile p).dropWhile p = l.dropWhile p := by
  induction l with
  | nil => rfl
  | cons c t ih =>
    by_cases h : p c <;> simp [List.dropWhile_cons, h, ih]

theorem length_dropWhile_le {α : Type} (p : α → Bool) (l : List α) :
    (l.dropWhile p).length ≤ l.length := by
  induction l with
  | nil => simp
  | cons c t ih =>
    by_cases h : p c
    · simp only [List.dropWhile_cons, h, if_true]
      exact le_trans ih (Nat.le_succ _)
    · simp [List.dropWhile_cons, h]

theorem not_head_of_dropWhile_eq_self {α : Type} (p : α → Bool) (c : α) (t : List α)
    (h : List.dropWhile p (c :: t) = c :: t) : p c = false := by
  by_cases hc : p c
  · exfalso
    rw [List.dropWhile_cons, if_pos hc] at h
    have hlen := length_dropWhile_le p t
    rw [h] at hlen
    simp at hlen
  · simpa using hc

theorem dropWhile_eq_self_of_append {α : Type} (p : α → Bool) (y t : List α)
    (h : List.dropWhile p (y ++ t) = y ++ t) : List.dropWhile p y = y := by
  cases y with
  | nil => rfl
  | cons c rest =>
    have hc : p c = false := not_head_of_dropWhile_eq_self p c (rest ++ t) h
    simp [List.dropWhile_cons, hc]

theorem dropWhile_suffix {α : Type} (p : α → Bool) (l : List α) :
    ∃ pre, l = pre ++ l.dropWhile p := by
  induction l with
  | nil => exact ⟨[], rfl⟩
  | cons c t ih =>
    by_cases h : p c
    · obtain ⟨pre, hp⟩ := ih
      exact ⟨c :: pre, by simp [List.dropWhile_cons, h, ← hp]⟩
    · exact ⟨[], by simp [List.dropWhile_cons, h]⟩

theorem pyStripList_idem (l : List Char) : pyStripList (pyStripList l) = pyStripList l := by
  unfold pyStripList
  set a := l.dropWhile isSpaceChar with ha
  have hda : a.dropWhile isSpaceChar = a := by
    rw [ha]
    exact dropWhile_dropWhile isSpaceChar l
  set b := (a.reverse.dropWhile isSpaceChar).reverse with hb
  have hbpre : ∃ t, a = b ++ t := by
    obtain ⟨pre, hp⟩ := dropWhile_suffix isSpaceChar a.reverse
    refine ⟨pre.reverse, ?_⟩
    rw [hb]
    have := congrArg List.reverse hp
    simpa using this
  have hdb : b.dropWhile isSpaceChar = b := by
    obtain ⟨t, ht⟩ := hbpre
    rw [ht] at hda
    exact dropWhile_eq_self_of_append isSpaceChar b t hda
  rw [hdb]
  have : b.reverse.dropWhile isSpaceChar = a.reverse.dropWhile isSpaceChar := by
    rw [hb]
    rw [List.reverse_reverse]
    exact dropWhile_dropWhile isSpaceChar a.reverse
  rw [this]

theorem pyStrip_idem (s : String) : pyStrip (pyStrip s) = pyStrip s := by
  unfold pyStrip
  rw [show (String.mk (pyStripList s.data)).data = pyStripList s.data from rfl]
  rw [pyStripList_idem]

theorem jStrip_stripped (v : J) (r : String) (h : jStrip v = some r) : pyStrip r = r := by
  cases v <;> simp [jStrip] at h
  rw [← h]
  exact pyStrip_idem _

/- Idempotence of the parts-store normalizer. -/

/-- The shape of every item emitted by the parts cleaning loop: a three-field
object whose identifying and name fields are already stripped. -/
def PartShape (p : J) : Prop :=
  ∃ pn nm ln, p = J.obj [("part_number", J.str pn), ("name", J.str nm), ("lines", J.arr ln)]
    ∧ pyStrip pn = pn ∧ pyStrip nm = nm

theorem cleanPartItem_shape (item p : J) (h : cleanPartItem item = some (some p)) :
    PartShape p := by
  cases item with
  | str s =>
    simp only [cleanPartItem, Option.some_inj] at h
    exact ⟨pyStrip s, "", [], h.symm, pyStrip_idem s, rfl⟩
  | obj ikvs =>
    simp only [cleanPartItem] at h
    cases hA : jStrip (orJ (dgetJ ikvs "part_number")
        (orJ (dgetJ ikvs "pn") (orJ (dgetJ ikvs "part") (.str "")))) with
    | none => rw [hA] at h; simp at h
    | some pn =>
      rw [hA] at h
      cases hB : jStrip (orJ (dgetJ ikvs "name") (.str "")) with
      | none => rw [hB] at h; simp at h
      | some nm =>
        rw [hB] at h
        simp only [Option.some_bind, Option.some_inj] at h
        refine ⟨pn, nm, ?_⟩
        have hpn := jStrip_stripped _ _ hA
        have hnm := jStrip_stripped _ _ hB
        cases hL : orJ (dgetJ ikvs "lines") (.arr []) with
        | str s =>
          rw [hL] at h
          exact ⟨_, h.symm, hpn, hnm⟩
        | arr xs =>
          rw [hL] at h
          exact ⟨xs, h.symm, hpn, hnm⟩
        | null => rw [hL] at h; exact ⟨[], h.symm, hpn, hnm⟩
        | bool b => rw [hL] at h; exact ⟨[], h.symm, hpn, hnm⟩
        | num n => rw [hL] at h; exact ⟨[], h.symm, hpn, hnm⟩
        | obj kvs => rw [hL] at h; exact ⟨[], h.symm, hpn, hnm⟩
  | null => simp [cleanPartItem] at h
  | bool b => simp [cleanPartItem] at h
  | num n => simp [cleanPartItem] at h
  | arr xs => simp [cleanPartItem] at h

theorem cleanPartItem_fix (p : J) (hs : PartShape p)
    (ht : (dgetJ (objKvs p) "part_number").truthy) : cleanPartItem p = some (some p) := by
  obtain ⟨pn, nm, ln, hp, hpn, hnm⟩ := hs
  subst hp
  have hpne : pn ≠ "" := by
    simpa [dgetJ, objKvs, J.truthy] using ht
  have hA : orJ (dgetJ [("part_number", J.str pn), ("name", J.str nm), ("lines", J.arr ln)]
      "part_number") (orJ (dgetJ [("part_number", J.str pn), ("name", J.str nm),
      ("lines", J.arr ln)] "pn") (orJ (dgetJ [("part_number", J.str pn), ("name", J.str nm),
      ("lines", J.arr ln)] "part") (.str ""))) = J.str pn := by
    simp [dgetJ, orJ, J.truthy, hpne]
  have hB : orJ (dgetJ [("part_number", J.str pn), ("name", J.str nm), ("lines", J.arr ln)]
      "name") (.str "") = J.str nm := by
    by_cases hn : nm = ""
    · subst hn
      simp [dgetJ, orJ, J.truthy]
    · simp [dgetJ, orJ, J.truthy, hn]
  have hL : orJ (dgetJ [("part_number", J.str pn), ("name", J.str nm), ("lines", J.arr ln)]
      "lines") (.arr []) = J.arr ln := by
    cases ln with
    | nil => simp [dgetJ, orJ, J.truthy]
    | cons x xs => simp [dgetJ, orJ, J.truthy]
  simp only [cleanPartItem, hA, hB, hL, jStrip, hpn, hnm, Option.some_bind]

theorem cleanParts_mem (l : List J) (c : List J) (h : cleanParts l = some c) :
    ∀ x ∈ c, ∃ item, cleanPartItem item = some (some x) := by
  induction l generalizing c with
  | nil =>
    simp only [cleanParts, Option.some_inj] at h
    subst h
    intro x hx
    simp at hx
  | cons item rest ih =>
    simp only [cleanParts] at h
    cases hc : cleanPartItem item with
    | none => rw [hc] at h; simp at h
    | some c0 =>
      rw [hc] at h
      cases hr : cleanParts rest with
      | none => rw [hr] at h; simp at h
      | some r =>
        rw [hr] at h
        simp only [Option.some_bind] at h
        cases c0 with
        | some p =>
          simp only [Option.some_inj] at h
          subst h
          intro x hx
          rcases List.mem_cons.mp hx with hx | hx
          · exact ⟨item, by rw [hc, hx]⟩
          · exact ih r hr x hx
        | none =>
          simp only [Option.some_inj] at h
          subst h
          exact ih r hr

theorem cleanParts_fix (l : List J) (h : ∀ x ∈ l, cleanPartItem x = some (some x)) :
    cleanParts l = some l := by
  induction l with
  | nil => rfl
  | cons item rest ih =>
    simp only [cleanParts, h item (List.mem_cons_self item rest),
      ih (fun x hx => h x (List.mem_cons_of_mem item hx)), Option.some_bind]

theorem normalizeParts_some_shape (v w : J) (h : normalizeParts v = some w) :
    ∃ kept, w = .obj [("parts", .arr kept)] ∧
      ∀ x ∈ kept, PartShape x ∧ (dgetJ (objKvs x) "part_number").truthy := by
  have main : ∀ (kvs0 : List (String × J)),
      normalizeParts (.obj kvs0) = some w →
      ∃ kept, w = .obj [("parts", .arr kept)] ∧
        ∀ x ∈ kept, PartShape x ∧ (dgetJ (objKvs x) "part_number").truthy := by
    intro kvs0 h0
    simp only [normalizeParts] at h0
    set kvs := match alookup kvs0 "parts" with
      | some _ => kvs0
      | none => match alookup kvs0 "data" with
        | some (.arr xs) => [("parts", J.arr xs)]
        | _ => kvs0 with hkvs
    set parts := match (alookup kvs "parts").getD (.arr []) with
      | .arr xs => xs
      | _ => [] with hparts
    cases hc : cleanParts parts with
    | none => rw [hc] at h0; simp at h0
    | some cleaned =>
      rw [hc] at h0
      simp only [Option.some_bind, Option.some_inj] at h0
      refine ⟨_, h0.symm, ?_⟩
      intro x hx
      have hx2 := List.mem_filter.mp hx
      obtain ⟨item, hitem⟩ := cleanParts_mem parts cleaned hc x hx2.1
      exact ⟨cleanPartItem_shape item x hitem, hx2.2⟩
  cases v with
  | arr xs =>
    have h2 : normalizeParts (.arr xs) = normalizeParts (.obj [("parts", J.arr xs)]) := rfl
    exact main _ (h2 ▸ h)
  | obj kvs0 => exact main _ h
  | null =>
    refine ⟨[], ?_, by simp⟩
    simpa [normalizeParts] using h.symm
  | bool b =>
    refine ⟨[], ?_, by simp⟩
    simpa [normalizeParts] using h.symm
  | num n =>
    refine ⟨[], ?_, by simp⟩
    simpa [normalizeParts] using h.symm
  | str s =>
    refine ⟨[], ?_, by simp⟩
    simpa [normalizeParts] using h.symm

theorem normalizeParts_idem (v w : J) (h : normalizeParts v = some w) :
    normalizeParts w = some w := by
  obtain ⟨kept, hw, hx⟩ := normalizeParts_some_shape v w h
  subst hw
  have hfix : cleanParts kept = some kept :=
    cleanParts_fix kept (fun x hx2 => cleanPartItem_fix x (hx x hx2).1 (hx x hx2).2)
  have hfil : kept.filter (fun p => (dgetJ (objKvs p) "part_number").truthy) = kept :=
    List.filter_eq_self.mpr (fun x hx2 => (hx x hx2).2)
  have hred : normalizeParts (J.obj [("parts", J.arr kept)]) =
      (cleanParts kept).bind fun cleaned =>
        some (J.obj [("parts",
          J.arr (cleaned.filter (fun p => (dgetJ (objKvs p) "part_number").truthy)))]) := rfl
  rw [hred, hfix, Option.some_bind, hfil]

/- Idempotence of the tools-store normalizer. -/

theorem normalizeTools_idem (v : J) : normalizeTools (normalizeTools v) = normalizeTools v := by
  cases v with
  | obj kvs =>
    cases h : alookup kvs "tools" with
    | some t =>
      cases t with
      | obj m =>
        have h1 : normalizeTools (J.obj kvs) = J.obj kvs := by
          simp [normalizeTools, h]
        rw [h1, h1]
      | null =>
        have h1 : normalizeTools (J.obj kvs) = J.obj [("tools", J.obj kvs)] := by
          simp [normalizeTools, h]
        rw [h1]
        rfl
      | bool b =>
        have h1 : normalizeTools (J.obj kvs) = J.obj [("tools", J.obj kvs)] := by
          simp [normalizeTools, h]
        rw [h1]
        rfl
      | num n =>
        have h1 : normalizeTools (J.obj kvs) = J.obj [("tools", J.obj kvs)] := by
          simp [normalizeTools, h]
        rw [h1]
        rfl
      | str s =>
        have h1 : normalizeTools (J.obj kvs) = J.obj [("tools", J.obj kvs)] := by
          simp [normalizeTools, h]
        rw [h1]
        rfl
      | arr xs =>
        have h1 : normalizeTools (J.obj kvs) = J.obj [("tools", J.obj kvs)] := by
          simp [normalizeTools, h]
        rw [h1]
        rfl
    | none =>
      have h1 : normalizeTools (J.obj kvs) = J.obj [("tools", J.obj kvs)] := by
        simp [normalizeTools, h]
      rw [h1]
      rfl
  | null => rfl
  | bool b => rfl
  | num n => rfl
  | str s => rfl
  | arr xs => rfl

/- Idempotence and field guarantees of the cost-store normalizer. -/

theorem costPipeline_default_lookup (kvs0 : List (String × J)) :
    alookup (costPipeline kvs0) "scrap_cost_default" =
      some ((alookup kvs0 "scrap_cost_default").getD (J.num 0)) := by
  simp only [costPipeline]
  have hne : "scrap_cost_by_part" ≠ "scrap_cost_default" := by decide
  have h1 : alookup (dsetdefault kvs0 "scrap_cost_by_part" (J.obj [])) "scrap_cost_default" =
      alookup kvs0 "scrap_cost_default" := alookup_dsetdefault_ne _ _ _ _ hne
  cases h : alookup (dsetdefault kvs0 "scrap_cost_by_part" (J.obj [])) "scrap_cost_by_part" with
  | some t =>
    cases t with
    | obj m => simp only [h, alookup_dsetdefault_self, h1]
    | null => simp only [h, alookup_dsetdefault_self, alookup_aset_ne _ _ _ _ hne, h1]
    | bool b => simp only [h, alookup_dsetdefault_self, alookup_aset_ne _ _ _ _ hne, h1]
    | num n => simp only [h, alookup_dsetdefault_self, alookup_aset_ne _ _ _ _ hne, h1]
    | str s => simp only [h, alookup_dsetdefault_self, alookup_aset_ne _ _ _ _ hne, h1]
    | arr xs => simp only [h, alookup_dsetdefault_self, alookup_aset_ne _ _ _ _ hne, h1]
  | none => simp only [h, alookup_dsetdefault_self, alookup_aset_ne _ _ _ _ hne, h1]

theorem costPipeline_by_part_lookup (kvs0 : List (String × J)) :
    alookup (costPipeline kvs0) "scrap_cost_by_part" =
      some (match (alookup kvs0 "scrap_cost_by_part").getD (J.obj []) with
        | .obj m => J.obj m
        | _ => J.obj []) := by
  simp only [costPipeline]
  have hne2 : "scrap_cost_default" ≠ "scrap_cost_by_part" := by decide
  have h0 : alookup (dsetdefault kvs0 "scrap_cost_by_part" (J.obj [])) "scrap_cost_by_part" =
      some ((alookup kvs0 "scrap_cost_by_part").getD (J.obj [])) := alookup_dsetdefault_self _ _ _
  cases hv : (alookup kvs0 "scrap_cost_by_part").getD (J.obj []) with
  | obj m =>
    rw [hv] at h0
    simp only [h0, alookup_dsetdefault_ne _ _ _ _ hne2]
  | null =>
    rw [hv] at h0
    simp only [h0, alookup_dsetdefault_ne _ _ _ _ hne2, alookup_aset_self]
  | bool b =>
    rw [hv] at h0
    simp only [h0, alookup_dsetdefault_ne _ _ _ _ hne2, alookup_aset_self]
  | num n =>
    rw [hv] at h0
    simp only [h0, alookup_dsetdefault_ne _ _ _ _ hne2, alookup_aset_self]
  | str s =>
    rw [hv] at h0
    simp only [h0, alookup_dsetdefault_ne _ _ _ _ hne2, alookup_aset_self]
  | arr xs =>
    rw [hv] at h0
    simp only [h0, alookup_dsetdefault_ne _ _ _ _ hne2, alookup_aset_self]

theorem costPipeline_by_part_is_obj (kvs0 : List (String × J)) :
    ∃ m, alookup (costPipeline kvs0) "scrap_cost_by_part" = some (J.obj m) := by
  rw [costPipeline_by_part_lookup]
  cases (alookup kvs0 "scrap_cost_by_part").getD (J.obj []) with
  | obj m => exact ⟨m, rfl⟩
  | null => exact ⟨[], rfl⟩
  | bool b => exact ⟨[], rfl⟩
  | num n => exact ⟨[], rfl⟩
  | str s => exact ⟨[], rfl⟩
  | arr xs => exact ⟨[], rfl⟩

theorem costPipeline_fix (kvs : List (String × J))
    (h1 : ∃ m, alookup kvs "scrap_cost_by_part" = some (J.obj m))
    (h2 : (alookup kvs "scrap_cost_default").isSome) : costPipeline kvs = kvs := by
  obtain ⟨m, hm⟩ := h1
  have e1 : dsetdefault kvs "scrap_cost_by_part" (J.obj []) = kvs := by
    unfold dsetdefault
    simp [hm]
  have e2 : dsetdefault kvs "scrap_cost_default" (J.num 0) = kvs := by
    unfold dsetdefault
    simp [h2]
  simp only [costPipeline, e1, hm, e2]

theorem normalizeCost_idem (v : J) : normalizeCost (normalizeCost v) = normalizeCost v := by
  show J.obj (costPipeline (costPipeline (match v with | .obj kvs => kvs | _ => []))) =
    J.obj (costPipeline (match v with | .obj kvs => kvs | _ => []))
  rw [costPipeline_fix _ (costPipeline_by_part_is_obj _)
    (by rw [costPipeline_default_lookup]; rfl)]

/- Idempotence of the users-store normalization. -/

theorem normalizeUsers_idem (v : J) : normalizeUsers (normalizeUsers v) = normalizeUsers v := by
  by_cases h : v.truthy = true
  · simp [normalizeUsers, h]
  · have h2 : v.truthy = false := by simpa using h
    have e1 : normalizeUsers v = J.obj [] := by simp [normalizeUsers, h2]
    rw [e1]
    rfl

end ToolLife

namespace ToolLife

example : normalizeParts (.arr [J.str "PN1",
    J.obj [("part_number", .str " PN2 "), ("lines", .str "A, B")]]) =
  some (.obj [("parts", .arr
    [J.obj [("part_number", .str "PN1"), ("name", .str ""), ("lines", .arr [])],
     J.obj [("part_number", .str "PN2"), ("name", .str ""),
       ("lines", .arr [J.str "A", J.str "B"])]])]) := by decide

example : normalizeCost .null =
  .obj [("scrap_cost_by_part", .obj []), ("scrap_cost_default", .num 0)] := by decide

/-- C3: for each of the four JSON store kinds (parts, tools, costs, users), the
normalize function applied to its own canonical output returns that output
unchanged, and applied to None, the empty dict, or the empty list it returns
the canonical empty shape without raising (for parts, whose embedding can
signal a raised exception as none, the result is some of the empty shape). -/
theorem claim_C3_normalize_idempotent_and_empty_total :
    (∀ v w, normalizeParts v = some w → normalizeParts w = some w) ∧
    (∀ v, normalizeTools (normalizeTools v) = normalizeTools v) ∧
    (∀ v, normalizeCost (normalizeCost v) = normalizeCost v) ∧
    (∀ v, normalizeUsers (normalizeUsers v) = normalizeUsers v) ∧
    normalizeParts .null = some (.obj [("parts", .arr [])]) ∧
    normalizeParts (.obj []) = some (.obj [("parts", .arr [])]) ∧
    normalizeParts (.arr []) = some (.obj [("parts", .arr [])]) ∧
    normalizeTools .null = .obj [("tools", .obj [])] ∧
    normalizeTools (.obj []) = .obj [("tools", .obj [])] ∧
    normalizeTools (.arr []) = .obj [("tools", .obj [])] ∧
    normalizeCost .null = .obj [("scrap_cost_by_part", .obj []), ("scrap_cost_default", .num 0)] ∧
    normalizeCost (.obj []) =
      .obj [("scrap_cost_by_part", .obj []), ("scrap_cost_default", .num 0)] ∧
    normalizeCost (.arr []) =
      .obj [("scrap_cost_by_part", .obj []), ("scrap_cost_default", .num 0)] ∧
    normalizeUsers .null = .obj [] ∧
    normalizeUsers (.obj []) = .obj [] ∧
    normalizeUsers (.arr []) = .obj [] :=
  ⟨normalizeParts_idem, normalizeTools_idem, normalizeCost_idem, normalizeUsers_idem,
    rfl, rfl, rfl, rfl, rfl, rfl, rfl, rfl, rfl, rfl, rfl, rfl⟩

/-- Witness for C3 at concrete inputs: one parts normalization output is shown
to be a fixpoint, and one concrete double application per other store kind. -/
theorem claim_C3_witness :
    normalizeParts (J.arr [J.str " PN7 "]) =
      some (J.obj [("parts", J.arr [J.obj [("part_number", J.str "PN7"),
        ("name", J.str ""), ("lines", J.arr [])]])]) ∧
    normalizeParts (J.obj [("parts", J.arr [J.obj [("part_number", J.str "PN7"),
        ("name", J.str ""), ("lines", J.arr [])]])]) =
      some (J.obj [("parts", J.arr [J.obj [("part_number", J.str "PN7"),
        ("name", J.str ""), ("lines", J.arr [])]])]) ∧
    normalizeTools (normalizeTools (J.num 5)) = normalizeTools (J.num 5) ∧
    normalizeCost (normalizeCost (J.str "x")) = normalizeCost (J.str "x") ∧
    normalizeUsers (normalizeUsers (J.arr [J.num 1])) = normalizeUsers (J.arr [J.num 1]) :=
  ⟨by decide,
    claim_C3_normalize_idempotent_and_empty_total.1 (J.arr [J.str " PN7 "]) _ (by decide),
    claim_C3_normalize_idempotent_and_empty_total.2.1 _,
    claim_C3_normalize_idempotent_and_empty_total.2.2.1 _,
    claim_C3_normalize_idempotent_and_empty_total.2.2.2.1 _⟩

/-- C4 counterexample: the claim says a wrong-typed existing value for either
field is discarded; but a wrong-typed (string) scrap_cost_default survives
normalization unchanged, so the result is not numeric. -/
theorem claim_C4_counterexample :
    isNumJ (jobjGet (normalizeCost (J.obj [("scrap_cost_default", J.str "abc")]))
      "scrap_cost_default") = false ∧
    normalizeCost (J.obj [("scrap_cost_default", J.str "abc")]) =
      J.obj [("scrap_cost_default", J.str "abc"), ("scrap_cost_by_part", J.obj [])] := by
  constructor
  · rfl
  · rfl

/-- C4 (amended): the result always carries a dict-valued scrap_cost_by_part,
with a wrong-typed existing value replaced by an empty dict; scrap_cost_default
always exists and equals 0 when absent (or when the input is not a dict), but a
wrong-typed existing scrap_cost_default value is kept as-is rather than
replaced. -/
theorem claim_C4_cost_store_field_guarantees (v : J) :
    (∃ m, jobjGet (normalizeCost v) "scrap_cost_by_part" = J.obj m) ∧
    (∀ kvs x, v = J.obj kvs → alookup kvs "scrap_cost_by_part" = some x → isObjJ x = false →
      jobjGet (normalizeCost v) "scrap_cost_by_part" = J.obj []) ∧
    (∀ kvs, v = J.obj kvs → alookup kvs "scrap_cost_default" = none →
      jobjGet (normalizeCost v) "scrap_cost_default" = J.num 0) ∧
    (isObjJ v = false → jobjGet (normalizeCost v) "scrap_cost_default" = J.num 0) ∧
    (∀ kvs x, v = J.obj kvs → alookup kvs "scrap_cost_default" = some x →
      jobjGet (normalizeCost v) "scrap_cost_default" = x) := by
  cases v with
  | obj kvs =>
    have hget : ∀ k, jobjGet (normalizeCost (J.obj kvs)) k =
        (alookup (costPipeline kvs) k).getD J.null := fun k => rfl
    refine ⟨?_, ?_, ?_, ?_, ?_⟩
    · obtain ⟨m, hm⟩ := costPipeline_by_part_is_obj kvs
      exact ⟨m, by rw [hget, hm]; rfl⟩
    · intro kvs2 x hv hx hobj
      injection hv with h
      subst h
      rw [hget, costPipeline_by_part_lookup, hx]
      cases x with
      | obj m => simp [isObjJ] at hobj
      | null => rfl
      | bool b => rfl
      | num n => rfl
      | str s => rfl
      | arr xs => rfl
    · intro kvs2 hv hnone
      injection hv with h
      subst h
      rw [hget, costPipeline_default_lookup, hnone]
      rfl
    · intro hobj
      simp [isObjJ] at hobj
    · intro kvs2 x hv hx
      injection hv with h
      subst h
      rw [hget, costPipeline_default_lookup, hx]
      rfl
  | null =>
    refine ⟨⟨[], rfl⟩, ?_, ?_, fun _ => rfl, ?_⟩
    · intro kvs2 x hv
      simp at hv
    · intro kvs2 hv
      simp at hv
    · intro kvs2 x hv
      simp at hv
  | bool b =>
    refine ⟨⟨[], rfl⟩, ?_, ?_, fun _ => rfl, ?_⟩
    · intro kvs2 x hv
      simp at hv
    · intro kvs2 hv
      simp at hv
    · intro kvs2 x hv
      simp at hv
  | num n =>
    refine ⟨⟨[], rfl⟩, ?_, ?_, fun _ => rfl, ?_⟩
    · intro kvs2 x hv
      simp at hv
    · intro kvs2 hv
      simp at hv
    · intro kvs2 x hv
      simp at hv
  | str s =>
    refine ⟨⟨[], rfl⟩, ?_, ?_, fun _ => rfl, ?_⟩
    · intro kvs2 x hv
      simp at hv
    · intro kvs2 hv
      simp at hv
    · intro kvs2 x hv
      simp at hv
  | arr xs =>
    refine ⟨⟨[], rfl⟩, ?_, ?_, fun _ => rfl, ?_⟩
    · intro kvs2 x hv
      simp at hv
    · intro kvs2 hv
      simp at hv
    · intro kvs2 x hv
      simp at hv

/-- Witness for C4 (amended) at a concrete wrong-typed input. -/
theorem claim_C4_witness :
    (∃ m, jobjGet (normalizeCost (J.obj [("scrap_cost_by_part", J.str "bad")]))
      "scrap_cost_by_part" = J.obj m) ∧
    jobjGet (normalizeCost (J.obj [("scrap_cost_by_part", J.str "bad")]))
      "scrap_cost_by_part" = J.obj [] ∧
    jobjGet (normalizeCost (J.obj [("scrap_cost_by_part", J.str "bad")]))
      "scrap_cost_default" = J.num 0 ∧
    jobjGet (normalizeCost (J.num 3)) "scrap_cost_default" = J.num 0 ∧
    jobjGet (normalizeCost (J.obj [("scrap_cost_default", J.num 7)]))
      "scrap_cost_default" = J.num 7 :=
  ⟨(claim_C4_cost_store_field_guarantees (J.obj [("scrap_cost_by_part", J.str "bad")])).1,
   (claim_C4_cost_store_field_guarantees
      (J.obj [("scrap_cost_by_part", J.str "bad")])).2.1
      [("scrap_cost_by_part", J.str "bad")] (J.str "bad") rfl (by decide) (by decide),
   (claim_C4_cost_store_field_guarantees
      (J.obj [("scrap_cost_by_part", J.str "bad")])).2.2.1
      [("scrap_cost_by_part", J.str "bad")] rfl (by decide),
   (claim_C4_cost_store_field_guarantees (J.num 3)).2.2.2.1 (by decide),
   (claim_C4_cost_store_field_guarantees
      (J.obj [("scrap_cost_default", J.num 7)])).2.2.2.2
      [("scrap_cost_default", J.num 7)] (J.num 7) rfl (by decide)⟩

/- Lemmas about the ledger merge and upsert loop. -/

theorem alookup_dmerge_map (a b : Dict) (k : String) :
    alookup (a.map (fun kv => match alookup b kv.1 with
      | some w => (kv.1, w)
      | none => kv)) k =
      match alookup a k with
      | some v => some ((alookup b k).getD v)
      | none => none := by
  induction a with
  | nil => rfl
  | cons kv rest ih =>
    obtain ⟨k1, v1⟩ := kv
    by_cases h : k1 = k
    · subst h
      cases hb : alookup b k1 <;> simp [hb]
    · cases hb : alookup b k1 <;> simp [hb, h, ih]

theorem alookup_filter_of_key (l : Dict) (g : String × J → Bool) (k : String)
    (hk : ∀ v, g (k, v) = true) : alookup (l.filter g) k = alookup l k := by
  induction l with
  | nil => rfl
  | cons kv rest ih =>
    obtain ⟨k1, v1⟩ := kv
    by_cases h : k1 = k
    · subst h
      simp [List.filter_cons, hk v1]
    · cases hg : g (k1, v1) <;> simp [List.filter_cons, hg, h, ih]

theorem alookup_dmerge (a b : Dict) (k : String) :
    alookup (dmerge a b) k =
      match alookup a k with
      | some v => some ((alookup b k).getD v)
      | none => alookup b k := by
  unfold dmerge
  cases h : alookup a k with
  | some v =>
    rw [alookup_append_of_isSome]
    · rw [alookup_dmerge_map, h]
    · rw [alookup_dmerge_map, h]
      rfl
  | none =>
    rw [alookup_append_of_eq_none]
    · rw [alookup_filter_of_key]
      intro v
      simp [h]
    · rw [alookup_dmerge_map, h]

theorem upsertEntries_not_found (idKey : String) (rec : Dict) (iso : String)
    (l : List Dict) (h : ∀ a ∈ l, dgetJ a idKey ≠ dgetJ rec idKey) :
    upsertEntries idKey rec iso l = (l, false) := by
  induction l with
  | nil => rfl
  | cons a rest ih =>
    have ha : dgetJ a idKey ≠ dgetJ rec idKey := h a (List.mem_cons_self a rest)
    simp only [upsertEntries, if_neg ha,
      ih (fun x hx => h x (List.mem_cons_of_mem a hx))]

theorem upsertEntries_found (idKey : String) (rec : Dict) (iso : String)
    (pre post : List Dict) (old : Dict)
    (hpre : ∀ a ∈ pre, dgetJ a idKey ≠ dgetJ rec idKey)
    (hold : dgetJ old idKey = dgetJ rec idKey) :
    upsertEntries idKey rec iso (pre ++ old :: post) =
      (pre ++ aset (dmerge old rec) "updated_at" (.str iso) :: post, true) := by
  induction pre with
  | nil => simp [upsertEntries, hold]
  | cons a rest ih =>
    have ha : dgetJ a idKey ≠ dgetJ rec idKey := hpre a (List.mem_cons_self a rest)
    have ih2 := ih (fun x hx => hpre x (List.mem_cons_of_mem a hx))
    simp only [List.cons_append, upsertEntries, if_neg ha, List.append_eq, ih2]

theorem dget_fst_upsert_action (action : Dict) (store : List Dict) (iso idTs k : String)
    (hk : k ≠ "updated_at") :
    dgetJ (upsert_action action store iso idTs).1 k =
      dgetJ (withActionDefaults action iso idTs) k := by
  simp only [upsert_action]
  cases h : (upsertEntries "action_id" (withActionDefaults action iso idTs) iso store).2
  · simp only [h, Bool.false_eq_true, if_false]
    unfold dgetJ
    rw [alookup_aset_ne _ _ _ _ (Ne.symm hk)]
  · simp [h]

theorem dget_fst_upsert_ncr (ncr : Dict) (store : List Dict) (iso idTs k : String)
    (hk : k ≠ "updated_at") :
    dgetJ (upsert_ncr ncr store iso idTs).1 k = dgetJ (withNcrDefaults ncr iso idTs) k := by
  simp only [upsert_ncr]
  cases h : (upsertEntries "ncr_id" (withNcrDefaults ncr iso idTs) iso store).2
  · simp only [h, Bool.false_eq_true, if_false]
    unfold dgetJ
    rw [alookup_aset_ne _ _ _ _ (Ne.symm hk)]
  · simp [h]

theorem alookup_isSome_of_dget_eq (d : Dict) (k : String) (v : J)
    (h : dgetJ d k = v) (hv : v ≠ J.null) : (alookup d k).isSome := by
  unfold dgetJ at h
  cases he : alookup d k
  · rw [he] at h
    exact absurd h.symm (by simpa using hv)
  · rfl

theorem dget_withActionDefaults_severity_none (a : Dict) (iso idTs : String)
    (h : alookup a "severity" = none) :
    dgetJ (withActionDefaults a iso idTs) "severity" = .str "Medium" := by
  simp only [withActionDefaults]
  have h1 : alookup (if (dgetJ a "action_id").truthy then a
      else aset a "action_id" (.str ("A-" ++ idTs))) "severity" = none := by
    by_cases ht : (dgetJ a "action_id").truthy <;>
      simp [ht, alookup_aset_ne _ _ _ _ (by decide : "action_id" ≠ "severity"), h]
  unfold dgetJ at h1 ⊢
  rw [alookup_dsetdefault_ne _ _ _ _ (by decide : "related" ≠ "severity"),
    alookup_dsetdefault_ne _ _ _ _ (by decide : "notes" ≠ "severity"),
    alookup_dsetdefault_ne _ _ _ _ (by decide : "created_at" ≠ "severity"),
    alookup_dsetdefault_ne _ _ _ _ (by decide : "status" ≠ "severity"),
    alookup_dsetdefault_self,
    alookup_dsetdefault_ne _ _ _ _ (by decide : "type" ≠ "severity"), h1]
  rfl

theorem dget_withActionDefaults_action_id (a : Dict) (iso idTs : String)
    (hid : (dgetJ a "action_id").truthy) :
    dgetJ (withActionDefaults a iso idTs) "action_id" = dgetJ a "action_id" := by
  simp only [withActionDefaults, hid, if_true]
  unfold dgetJ
  rw [alookup_dsetdefault_ne _ _ _ _ (by decide : "related" ≠ "action_id"),
    alookup_dsetdefault_ne _ _ _ _ (by decide : "notes" ≠ "action_id"),
    alookup_dsetdefault_ne _ _ _ _ (by decide : "created_at" ≠ "action_id"),
    alookup_dsetdefault_ne _ _ _ _ (by decide : "status" ≠ "action_id"),
    alookup_dsetdefault_ne _ _ _ _ (by decide : "severity" ≠ "action_id"),
    alookup_dsetdefault_ne _ _ _ _ (by decide : "type" ≠ "action_id")]

theorem withNcrDefaults_noop (d : Dict) (iso idTs : String)
    (h1 : (dgetJ d "ncr_id").truthy = true)
    (h2 : (alookup d "status").isSome)
    (h3 : (alookup d "created_at").isSome) :
    withNcrDefaults d iso idTs = d := by
  simp only [withNcrDefaults, h1, if_true, dsetdefault, h2, h3]

theorem upsert_ncrSeed_facts (pn ln ow d cb rei : String) (ncrs : List Dict)
    (iso idTs : String) :
    dgetJ (upsert_ncr (ncrSeed pn ln ow d cb rei) ncrs iso idTs).1 "ncr_id" =
      J.str ("NCR-" ++ idTs) ∧
    dgetJ (upsert_ncr (ncrSeed pn ln ow d cb rei) ncrs iso idTs).1 "status" =
      J.str "Open" ∧
    dgetJ (upsert_ncr (ncrSeed pn ln ow d cb rei) ncrs iso idTs).1 "created_at" =
      J.str iso := by
  refine ⟨?_, ?_, ?_⟩ <;> rw [dget_fst_upsert_ncr _ _ _ _ _ (by decide)] <;> rfl

theorem upsert_actionSeed_facts (t sv ow cb dd ln pn rei d : String) (nid : J)
    (actions : List Dict) (iso idTs : String) :
    dgetJ (upsert_action (actionSeed t sv ow cb dd ln pn rei d nid) actions iso idTs).1
      "action_id" = J.str ("A-" ++ idTs) ∧
    dgetJ (upsert_action (actionSeed t sv ow cb dd ln pn rei d nid) actions iso idTs).1
      "status" = J.str "Open" ∧
    dgetJ (upsert_action (actionSeed t sv ow cb dd ln pn rei d nid) actions iso idTs).1
      "severity" = J.str sv ∧
    dgetJ (upsert_action (actionSeed t sv ow cb dd ln pn rei d nid) actions iso idTs).1
      "related" = J.obj [("ncr_id", nid), ("entry_id", J.str rei)] := by
  refine ⟨?_, ?_, ?_, ?_⟩ <;> rw [dget_fst_upsert_action _ _ _ _ _ (by decide)] <;> rfl

theorem dget_aset_ne (d : Dict) (k k' : String) (v : J) (h : k ≠ k') :
    dgetJ (aset d k v) k' = dgetJ d k' := by
  unfold dgetJ
  rw [alookup_aset_ne _ _ _ _ h]

theorem dget_aset_self (d : Dict) (k : String) (v : J) : dgetJ (aset d k v) k = v := by
  unfold dgetJ
  rw [alookup_aset_self]
  rfl

theorem withNcrDefaults_noop_of_facts (r : Dict) (x : J) (iso idTs : String)
    (hnid : dgetJ r "ncr_id" = J.str ("NCR-" ++ idTs))
    (hst : dgetJ r "status" = J.str "Open")
    (hca : dgetJ r "created_at" = J.str iso) :
    withNcrDefaults (aset r "action_id" x) iso idTs = aset r "action_id" x := by
  apply withNcrDefaults_noop
  · unfold dgetJ at hnid ⊢
    rw [alookup_aset_ne _ _ _ _ (by decide : "action_id" ≠ "ncr_id"), hnid]
    have hne : ("NCR-" ++ idTs) ≠ "" := by
      intro he
      have hd : ('N' :: 'C' :: 'R' :: '-' :: idTs.data : List Char) = [] :=
        congrArg String.data he
      simp at hd
    simp [J.truthy, bne_iff_ne, hne]
  · rw [alookup_aset_ne _ _ _ _ (by decide : "action_id" ≠ "status")]
    exact alookup_isSome_of_dget_eq _ _ _ hst (by simp)
  · rw [alookup_aset_ne _ _ _ _ (by decide : "action_id" ≠ "created_at")]
    exact alookup_isSome_of_dget_eq _ _ _ hca (by simp)

/- Lemmas about the tabular schema enforcement. -/

theorem containsStr (l : List String) (a : String) : l.contains a = true ↔ a ∈ l := by
  simp

theorem containsStr_false (l : List String) (a : String) :
    l.contains a = false ↔ a ∉ l := by
  rw [← Bool.not_eq_true, not_iff_not]
  exact containsStr l a

theorem filter_not_contains_prefix (C l : List String) :
    (C ++ (C.filter (fun c => ¬ l.contains c)).filter (fun c => ¬ C.contains c)) =
      C := by
  have h0 : (C.filter (fun c => ¬ l.contains c)).filter
      (fun c => ¬ C.contains c) = [] := by
    rw [List.filter_eq_nil_iff]
    intro a ha
    have haC : a ∈ C := (List.mem_filter.mp ha).1
    simp [haC]
  rw [h0, List.append_nil]

theorem ensure_cols (C : List String) (df : DF) :
    (ensure_df_schema C df).cols = C ++ df.cols.filter (fun c => ¬ C.contains c) := by
  show C ++ (df.cols ++ C.filter (fun c => ¬ df.cols.contains c)).filter
    (fun c => ¬ C.contains c) = _
  rw [List.filter_append]
  have h0 : (C.filter (fun c => ¬ df.cols.contains c)).filter
      (fun c => ¬ C.contains c) = [] := by
    rw [List.filter_eq_nil_iff]
    intro a ha
    have haC : a ∈ C := (List.mem_filter.mp ha).1
    simp [haC]
  rw [h0, List.append_nil]

theorem map_fst_pairs {β : Type} (l : List String) (f : String → β) :
    (l.map (fun c => (c, f c))).map Prod.fst = l := by
  induction l with
  | nil => rfl
  | cons x xs ih => simp [ih]

theorem WF_ensure (C : List String) (df : DF) : WF (ensure_df_schema C df) := by
  intro r hr
  simp only [ensure_df_schema, List.mem_map] at hr
  obtain ⟨r0, _, hr0⟩ := hr
  subst hr0
  simp only [ensure_df_schema]
  exact map_fst_pairs _ _

theorem reindexed_cell (C : List String) (dfcols : List String) (r : Row)
    (hkeys : r.map Prod.fst = dfcols) (c : String) (hc : c ∈ C ∨ c ∈ dfcols) :
    cellD (r ++ (C.filter (fun x => ¬ dfcols.contains x)).map
      (fun x => (x, Val.str ""))) c =
      if dfcols.contains c then cellD r c else Val.str "" := by
  cases hm : dfcols.contains c with
  | true =>
    have hmem : c ∈ r.map Prod.fst := by
      rw [hkeys]
      exact (containsStr _ _).mp hm
    unfold cellD
    rw [alookup_append_of_isSome _ _ _ (alookup_isSome_of_mem_keys _ _ hmem)]
    simp
  | false =>
    have hnot : c ∉ dfcols := (containsStr_false _ _).mp hm
    have hC : c ∈ C := by
      rcases hc with hc | hc
      · exact hc
      · exact absurd hc hnot
    unfold cellD
    rw [alookup_append_of_eq_none _ _ _
      (alookup_eq_none_of_not_mem_keys _ _ (by rw [hkeys]; exact hnot))]
    rw [alookup_mapPairs]
    simp [List.mem_filter, hC, hm, hnot]

theorem ensure_char (C : List String) (df : DF) (hWF : WF df) :
    ensure_df_schema C df = ⟨C ++ df.cols.filter (fun c => ¬ C.contains c),
      df.rows.map (fun r => (C ++ df.cols.filter (fun c => ¬ C.contains c)).map
        (fun c => (c, if df.cols.contains c then cellD r c else Val.str "")))⟩ := by
  have hcols := ensure_cols C df
  have hrows : (ensure_df_schema C df).rows =
      df.rows.map (fun r => (C ++ df.cols.filter (fun c => ¬ C.contains c)).map
        (fun c => (c, if df.cols.contains c then cellD r c else Val.str ""))) := by
    simp only [ensure_df_schema, List.map_map]
    apply List.map_congr_left
    intro r hr
    have hNeq : C ++ (df.cols ++ C.filter (fun c => ¬ df.cols.contains c)).filter
        (fun c => ¬ C.contains c) = C ++ df.cols.filter (fun c => ¬ C.contains c) := by
      rw [List.filter_append]
      have h0 : (C.filter (fun c => ¬ df.cols.contains c)).filter
          (fun c => ¬ C.contains c) = [] := by
        rw [List.filter_eq_nil_iff]
        intro a ha
        have haC : a ∈ C := (List.mem_filter.mp ha).1
        simp [haC]
      rw [h0, List.append_nil]
    simp only [Function.comp]
    rw [hNeq]
    apply List.map_congr_left
    intro c hcmem
    have hc : c ∈ C ∨ c ∈ df.cols := by
      rcases List.mem_append.mp hcmem with h | h
      · exact Or.inl h
      · exact Or.inr (List.mem_filter.mp h).1
    rw [reindexed_cell C df.cols r (hWF r hr) c hc]
  calc ensure_df_schema C df = ⟨(ensure_df_schema C df).cols,
      (ensure_df_schema C df).rows⟩ := rfl
    _ = _ := by rw [hcols, hrows]

theorem cellD_mapPairs_of_mem (l : List String) (f : String → Val) (c : String)
    (hc : c ∈ l) : cellD (l.map (fun x => (x, f x))) c = f c := by
  unfold cellD
  rw [alookup_mapPairs]
  simp [hc]

theorem ensure_idem (C : List String) (df : DF) (hWF : WF df) :
    ensure_df_schema C (ensure_df_schema C df) = ensure_df_schema C df := by
  have h1 := ensure_char C df hWF
  have h2 := ensure_char C (ensure_df_schema C df) (WF_ensure C df)
  rw [ensure_cols C df] at h2
  have hNfix : C ++ (C ++ df.cols.filter (fun c => ¬ C.contains c)).filter
      (fun c => ¬ C.contains c) = C ++ df.cols.filter (fun c => ¬ C.contains c) := by
    rw [List.filter_append]
    have e1 : C.filter (fun c => ¬ C.contains c) = [] := by
      rw [List.filter_eq_nil_iff]
      intro a ha
      simp [ha]
    have e2 : (df.cols.filter (fun c => ¬ C.contains c)).filter
        (fun c => ¬ C.contains c) = df.cols.filter (fun c => ¬ C.contains c) := by
      rw [List.filter_eq_self]
      intro a ha
      exact (List.mem_filter.mp ha).2
    rw [e1, e2, List.nil_append]
  rw [hNfix] at h2
  have h1rows : (ensure_df_schema C df).rows =
      df.rows.map (fun r => (C ++ df.cols.filter (fun c => ¬ C.contains c)).map
        (fun c => (c, if df.cols.contains c then cellD r c else Val.str ""))) := by
    rw [h1]
  rw [h2, h1rows]
  conv_rhs => rw [h1]
  rw [List.map_map]
  congr 1
  apply List.map_congr_left
  intro r0 hr0
  simp only [Function.comp]
  apply List.map_congr_left
  intro c hcm
  rw [(containsStr _ c).mpr hcm]
  simp only [if_true]
  rw [cellD_mapPairs_of_mem _ _ c hcm]

theorem mem_canon_append (C l : List String) (k : String) (hk : k ∈ l) :
    k ∈ C ++ l.filter (fun c => ¬ C.contains c) := by
  by_cases hC : C.contains k = true
  · exact List.mem_append.mpr (Or.inl ((containsStr _ _).mp hC))
  · refine List.mem_append.mpr (Or.inr ?_)
    rw [List.mem_filter]
    have hnm : k ∉ C := fun hm => hC ((containsStr _ _).mpr hm)
    exact ⟨hk, by simp [hnm]⟩

theorem getD_mem {α : Type} (l : List α) (i : Nat) (d : α) (h : i < l.length) :
    l.getD i d ∈ l := by
  induction l generalizing i with
  | nil => simp at h
  | cons a t ih =>
    cases i with
    | zero => simp
    | succ j =>
      simp only [List.getD_cons_succ]
      exact List.mem_cons_of_mem a (ih j (by simpa using h))

theorem getD_map_of_lt {α β : Type} (f : α → β) (d1 : α) (d2 : β) (l : List α)
    (i : Nat) (hi : i < l.length) : (l.map f).getD i d2 = f (l.getD i d1) := by
  induction l generalizing i with
  | nil => simp at hi
  | cons a t ih =>
    cases i with
    | zero => rfl
    | succ j =>
      simp only [List.map_cons, List.getD_cons_succ]
      exact ih j (by simpa using hi)

theorem applyUpds_keys (u : List (String × Val)) (r : Row) :
    (applyUpds u r).map Prod.fst = r.map Prod.fst := by
  unfold applyUpds
  rw [List.map_map]
  apply List.map_congr_left
  intro kv _
  simp only [Function.comp]
  cases alookup u kv.1 <;> rfl

theorem alookup_applyUpds (u : List (String × Val)) (r : Row) (k : String) :
    alookup (applyUpds u r) k = (alookup r k).map (fun v => (alookup u k).getD v) := by
  induction r with
  | nil => rfl
  | cons kv rest ih =>
    obtain ⟨k1, v1⟩ := kv
    by_cases h : k1 = k
    · subst h
      cases hu : alookup u k1 <;> simp [applyUpds, hu]
    · cases hu : alookup u k1
      all_goals
        simp only [applyUpds, List.map_cons, hu, alookup_cons, if_neg h]
        exact ih

theorem submit_last_row (C : List String) (df : DF) (row : Row) :
    ∃ rest lastRow, (submit_saved_df C df row).rows = rest ++ [lastRow] ∧
      ∀ k, k ∈ row.map Prod.fst → cellD lastRow k = cellD row k := by
  have hWFc : WF (concatRow df row) := by
    intro r hr
    simp only [concatRow, List.mem_append, List.mem_map] at hr
    rcases hr with ⟨q, _, hq⟩ | hq
    · rw [← hq]
      exact map_fst_pairs _ _
    · rw [List.mem_singleton] at hq
      rw [hq]
      exact map_fst_pairs _ _
  set ccols := df.cols ++ (row.map Prod.fst).filter (fun k => ¬ df.cols.contains k)
    with hccols
  set N := C ++ ccols.filter (fun c => ¬ C.contains c) with hN
  refine ⟨(df.rows.map (fun r => ccols.map (fun c => (c, cellD r c)))).map
      (fun r => N.map (fun c => (c, if ccols.contains c then cellD r c else Val.str ""))),
    N.map (fun c => (c, if ccols.contains c then
      cellD (ccols.map (fun x => (x, cellD row x))) c else Val.str "")), ?_, ?_⟩
  · show (ensure_df_schema C (concatRow df row)).rows = _
    rw [ensure_char C (concatRow df row) hWFc]
    show ((df.rows.map (fun r => ccols.map (fun c => (c, cellD r c))) ++
        [ccols.map (fun x => (x, cellD row x))]).map
        (fun r => N.map (fun c => (c, if ccols.contains c then cellD r c
          else Val.str "")))) = _
    rw [List.map_append]
    rfl
  · intro k hk
    have hkc : k ∈ ccols := by
      rw [hccols]
      exact mem_canon_append df.cols _ k hk
    have hkN : k ∈ N := by
      rw [hN]
      exact mem_canon_append C ccols k hkc
    rw [cellD_mapPairs_of_mem N _ k hkN, (containsStr _ _).mpr hkc]
    simp only [if_true]
    rw [cellD_mapPairs_of_mem ccols _ k hkc]

theorem stamp_cells (C : List String) (df : DF) (p : Row → Bool)
    (upds : List (String × Val)) (hWF : WF df)
    (hkeys : ∀ k ∈ upds.map Prod.fst, k ∈ df.cols) :
    (ensure_df_schema C (locSet df p upds)).rows.length = df.rows.length ∧
    (∀ i, i < df.rows.length → ∀ k, k ∈ df.cols →
      cellD ((ensure_df_schema C (locSet df p upds)).rows.getD i []) k =
        if p (df.rows.getD i []) then
          (alookup upds k).getD (cellD (df.rows.getD i []) k)
        else cellD (df.rows.getD i []) k) := by
  have hnil : (upds.map Prod.fst).filter (fun k => ¬ df.cols.contains k) = [] := by
    rw [List.filter_eq_nil_iff]
    intro a ha
    simp [hkeys a ha]
  have hloc : locSet df p upds =
      ⟨df.cols, df.rows.map (fun r => if p r then applyUpds upds r else r)⟩ := by
    simp only [locSet, hnil]
    congr 1
    · simp
    · apply List.map_congr_left
      intro r hr
      cases hp : p r <;> simp [hp]
  have hWFl : WF (locSet df p upds) := by
    rw [hloc]
    intro r hr
    simp only [List.mem_map] at hr
    obtain ⟨r0, hr0, hr0e⟩ := hr
    rw [← hr0e]
    show (if p r0 then applyUpds upds r0 else r0).map Prod.fst = df.cols
    cases hp : p r0
    · simp only [hp, Bool.false_eq_true, if_false]
      exact hWF r0 hr0
    · simp only [hp, if_true]
      rw [applyUpds_keys]
      exact hWF r0 hr0
  constructor
  · rw [ensure_char C _ hWFl]
    rw [hloc]
    simp
  · intro i hi k hk
    rw [ensure_char C _ hWFl]
    rw [hloc]
    show cellD (((df.rows.map (fun r => if p r then applyUpds upds r else r)).map
      (fun r => (C ++ df.cols.filter (fun c => ¬ C.contains c)).map
        (fun c => (c, if df.cols.contains c then cellD r c else Val.str "")))).getD i []) k
      = _
    rw [List.map_map]
    rw [getD_map_of_lt _ [] [] df.rows i hi]
    simp only [Function.comp]
    have hkN : k ∈ C ++ df.cols.filter (fun c => ¬ C.contains c) :=
      mem_canon_append C df.cols k hk
    rw [cellD_mapPairs_of_mem _ _ k hkN, (containsStr _ _).mpr hk]
    simp only [if_true]
    cases hp : p (df.rows.getD i [])
    · simp only [hp, Bool.false_eq_true, if_false]
    · simp only [hp, if_true]
      have hri : df.rows.getD i [] ∈ df.rows := getD_mem _ _ _ hi
      have hksome : (alookup (df.rows.getD i []) k).isSome :=
        alookup_isSome_of_mem_keys _ _ (by rw [hWF _ hri]; exact hk)
      unfold cellD
      rw [alookup_applyUpds]
      obtain ⟨v, hv⟩ := Option.isSome_iff_exists.mp hksome
      rw [hv]
      simp

/- The timestamp format round-trips through the parser. -/

theorem digitChar_isDigit : ∀ d, d < 10 → isDigitChar (digitChar d) = true := by decide

theorem digitChar_toNat : ∀ d, d < 10 → (digitChar d).toNat - 48 = d := by decide

theorem padDigits_succ (w n : Nat) :
    padDigits (w + 1) n = digitChar (n / 10 ^ w % 10) :: padDigits w n := by
  simp [padDigits, List.range_succ]

theorem foldl_padDigits (w : Nat) : ∀ n a : Nat,
    (padDigits w n).foldl (fun a c => a * 10 + (c.toNat - 48)) a =
      a * 10 ^ w + n % 10 ^ w := by
  induction w with
  | zero =>
    intro n a
    simp [padDigits, Nat.mod_one]
  | succ w ih =>
    intro n a
    rw [padDigits_succ]
    simp only [List.foldl_cons]
    rw [digitChar_toNat _ (Nat.mod_lt _ (by norm_num))]
    rw [ih n (a * 10 + n / 10 ^ w % 10)]
    have hm : n % 10 ^ (w + 1) = n % 10 ^ w + 10 ^ w * (n / 10 ^ w % 10) := by
      rw [pow_succ]
      exact Nat.mod_mul
    rw [hm, pow_succ]
    ring

theorem digitsToNat_padDigits (w n : Nat) (h : n < 10 ^ w) :
    digitsToNat (padDigits w n) = n := by
  unfold digitsToNat
  rw [foldl_padDigits]
  simp [Nat.mod_eq_of_lt h]

theorem parseTs_fmtTs (t : DateTime) (hy : t.year < 10000) (hmo : t.month < 100)
    (hd : t.day < 100) (hh : t.hour < 100) (hmi : t.minute < 100)
    (hs : t.second < 100) : parseTs (fmtTs t) = some t := by
  have hall : ∀ n i : Nat, isDigitChar (digitChar (n / 10 ^ i % 10)) = true :=
    fun n i => digitChar_isDigit _ (Nat.mod_lt _ (by norm_num))
  show (if ([digitChar (t.year / 10 ^ 3 % 10), digitChar (t.year / 10 ^ 2 % 10),
      digitChar (t.year / 10 ^ 1 % 10), digitChar (t.year / 10 ^ 0 % 10),
      digitChar (t.month / 10 ^ 1 % 10), digitChar (t.month / 10 ^ 0 % 10),
      digitChar (t.day / 10 ^ 1 % 10), digitChar (t.day / 10 ^ 0 % 10),
      digitChar (t.hour / 10 ^ 1 % 10), digitChar (t.hour / 10 ^ 0 % 10),
      digitChar (t.minute / 10 ^ 1 % 10), digitChar (t.minute / 10 ^ 0 % 10),
      digitChar (t.second / 10 ^ 1 % 10), digitChar (t.second / 10 ^ 0 % 10)].all
        isDigitChar) &&
      ('-' == '-') && ('-' == '-') && (' ' == ' ') && (':' == ':') && (':' == ':') then
    some ⟨digitsToNat [digitChar (t.year / 10 ^ 3 % 10), digitChar (t.year / 10 ^ 2 % 10),
        digitChar (t.year / 10 ^ 1 % 10), digitChar (t.year / 10 ^ 0 % 10)],
      digitsToNat [digitChar (t.month / 10 ^ 1 % 10), digitChar (t.month / 10 ^ 0 % 10)],
      digitsToNat [digitChar (t.day / 10 ^ 1 % 10), digitChar (t.day / 10 ^ 0 % 10)],
      digitsToNat [digitChar (t.hour / 10 ^ 1 % 10), digitChar (t.hour / 10 ^ 0 % 10)],
      digitsToNat [digitChar (t.minute / 10 ^ 1 % 10),
        digitChar (t.minute / 10 ^ 0 % 10)],
      digitsToNat [digitChar (t.second / 10 ^ 1 % 10),
        digitChar (t.second / 10 ^ 0 % 10)]⟩
    else none) = some t
  simp only [List.all_cons, List.all_nil, hall, Bool.and_true, Bool.true_and,
    beq_self_eq_true, if_true]
  have e4 : [digitChar (t.year / 10 ^ 3 % 10), digitChar (t.year / 10 ^ 2 % 10),
      digitChar (t.year / 10 ^ 1 % 10), digitChar (t.year / 10 ^ 0 % 10)] =
      padDigits 4 t.year := rfl
  have e2 : ∀ n : Nat, [digitChar (n / 10 ^ 1 % 10), digitChar (n / 10 ^ 0 % 10)] =
      padDigits 2 n := fun n => rfl
  rw [e4, e2 t.month, e2 t.day, e2 t.hour, e2 t.minute, e2 t.second]
  rw [digitsToNat_padDigits 4 t.year (by simpa using hy),
    digitsToNat_padDigits 2 t.month (by simpa using hmo),
    digitsToNat_padDigits 2 t.day (by simpa using hd),
    digitsToNat_padDigits 2 t.hour (by simpa using hh),
    digitsToNat_padDigits 2 t.minute (by simpa using hmi),
    digitsToNat_padDigits 2 t.second (by simpa using hs)]

/-- C1: the claim also says get_df returns a valid empty-schema table when the
month file exists but cannot be parsed. The code creates the rescue file and
leaves the original untouched, as claimed, but get_df then re-reads the
original unreadable path, so the parse exception propagates and no table is
returned: the result is none while the rescue file holds the full empty
schema and the original entry is unchanged. -/
theorem claim_C1_unreadable_load_raises :
    (get_df COLUMNS "tool_life_data_2026_01.xlsx"
      "tool_life_data_2026_01_RESCUE_20260102_030405.xlsx"
      [("tool_life_data_2026_01.xlsx", FileData.unreadable)]).1 = none ∧
    (get_df COLUMNS "tool_life_data_2026_01.xlsx"
      "tool_life_data_2026_01_RESCUE_20260102_030405.xlsx"
      [("tool_life_data_2026_01.xlsx", FileData.unreadable)]).2 =
      [("tool_life_data_2026_01.xlsx", FileData.unreadable),
       ("tool_life_data_2026_01_RESCUE_20260102_030405.xlsx",
        FileData.table ⟨COLUMNS, []⟩)] := by
  constructor
  · rfl
  · rfl

/-- C2: loading a parseable month file returns a table whose columns are
exactly the canonical schema followed by the file's extra columns in their
original order; canonical columns keep their stored values, missing canonical
columns read as the empty string, and extra columns keep their stored values;
loading a missing file returns the empty canonical-schema table. -/
theorem claim_C2_load_schema_conformance (C : List String) (path rescue : String)
    (fs : FS) (df : DF) (hWF : WF df)
    (hfile : alookup fs path = some (.table df)) :
    ((get_df C path rescue fs).1 = some (⟨C ++ df.cols.filter (fun c => ¬ C.contains c),
      df.rows.map (fun r => (C ++ df.cols.filter (fun c => ¬ C.contains c)).map
        (fun c => (c, if df.cols.contains c then cellD r c else Val.str "")))⟩, path)) ∧
    (∀ fs2 : FS, alookup fs2 path = none →
      (get_df C path rescue fs2).1 = some (⟨C, []⟩, path)) := by
  constructor
  · have hstep : get_df C path rescue fs =
        (some (ensure_df_schema C (ensure_df_schema C df), path),
         aset fs path (.table (ensure_df_schema C df))) := by
      simp only [get_df, ensure_excel_file, hfile, alookup_aset_self]
    rw [hstep]
    rw [ensure_idem C df hWF, ensure_char C df hWF]
  · intro fs2 hnone
    have hstep : get_df C path rescue fs2 =
        (some (ensure_df_schema C (⟨C, []⟩ : DF), path),
         aset fs2 path (.table ⟨C, []⟩)) := by
      simp only [get_df, ensure_excel_file, hnone, alookup_aset_self]
    rw [hstep]
    rw [ensure_char C ⟨C, []⟩ (by intro r hr; simp at hr)]
    have e1 : C.filter (fun c => ¬ C.contains c) = [] := by
      rw [List.filter_eq_nil_iff]
      intro a ha
      simp [ha]
    simp [e1]

/-- Witness for C2 at a concrete store: a file with an extra column X and a
missing canonical column Date comes back with canonical columns first, the
stored ID preserved, Date filled with the empty string, and X kept last. -/
theorem claim_C2_witness :
    (get_df ["ID", "Date"] "m.xlsx" "r.xlsx"
      [("m.xlsx", FileData.table ⟨["X", "ID"],
        [[("X", Val.str "extra"), ("ID", Val.str "7")]]⟩)]).1 =
      some (⟨["ID", "Date", "X"],
        [[("ID", Val.str "7"), ("Date", Val.str ""), ("X", Val.str "extra")]]⟩,
        "m.xlsx") ∧
    (get_df ["ID", "Date"] "m.xlsx" "r.xlsx" []).1 =
      some (⟨["ID", "Date"], []⟩, "m.xlsx") := by
  constructor
  · have h := (claim_C2_load_schema_conformance ["ID", "Date"] "m.xlsx" "r.xlsx"
      [("m.xlsx", FileData.table ⟨["X", "ID"],
        [[("X", Val.str "extra"), ("ID", Val.str "7")]]⟩)]
      ⟨["X", "ID"], [[("X", Val.str "extra"), ("ID", Val.str "7")]]⟩
      (by intro r hr; simp at hr; rw [hr]; rfl) (by decide)).1
    rw [h]
    rfl
  · exact (claim_C2_load_schema_conformance ["ID", "Date"] "m.xlsx" "r.xlsx"
      [("m.xlsx", FileData.table ⟨["X", "ID"],
        [[("X", Val.str "extra"), ("ID", Val.str "7")]]⟩)]
      ⟨["X", "ID"], [[("X", Val.str "extra"), ("ID", Val.str "7")]]⟩
      (by intro r hr; simp at hr; rw [hr]; rfl) (by decide)).2 [] rfl

/-- C9: the parts normalizer on the mixed legacy list promotes the bare string,
strips the identifying field, and splits the comma-separated lines string. -/
theorem claim_C9_parts_normalization_example :
    normalizeParts (.arr [J.str "PN1",
        J.obj [("part_number", .str " PN2 "), ("lines", .str "A, B")]]) =
      some (.obj [("parts", .arr
        [J.obj [("part_number", .str "PN1"), ("name", .str ""), ("lines", .arr [])],
         J.obj [("part_number", .str "PN2"), ("name", .str ""),
           ("lines", .arr [J.str "A", J.str "B"])]])]) := by
  decide

/-- C5: for any inputs and any prior ledger state, create_ncr_and_action
returns an NCR with status Open and an Action with status Open carrying the
given severity, cross-linked both ways (the action related field stores the
NCR id and the NCR stores the action id); severity defaults to Medium exactly
when the upserted record carries no severity key. -/
theorem claim_C5_create_linked_cross_links (title description severity owner
    created_by line part_number due_date related_entry_id : String)
    (ncrs actions : List Dict) (iso idTs : String) :
    ∃ ncr action ncrs2 actions2,
      create_ncr_and_action title description severity owner created_by line part_number
        due_date related_entry_id ncrs actions iso idTs = ((ncr, action), ncrs2, actions2) ∧
      dgetJ ncr "status" = .str "Open" ∧
      dgetJ action "status" = .str "Open" ∧
      dgetJ action "severity" = .str severity ∧
      jobjGet (dgetJ action "related") "ncr_id" = dgetJ ncr "ncr_id" ∧
      dgetJ ncr "action_id" = dgetJ action "action_id" ∧
      (∀ (a : Dict) (acts : List Dict) (iso2 idTs2 : String),
        alookup a "severity" = none →
        dgetJ (upsert_action a acts iso2 idTs2).1 "severity" = .str "Medium") := by
  obtain ⟨hnid, hnst, hncrea⟩ :=
    upsert_ncrSeed_facts part_number line owner description created_by related_entry_id
      ncrs iso idTs
  obtain ⟨haid, hast, hasev, harel⟩ :=
    upsert_actionSeed_facts title severity owner created_by due_date line part_number
      related_entry_id description
      (dgetJ (upsert_ncr (ncrSeed part_number line owner description created_by
        related_entry_id) ncrs iso idTs).1 "ncr_id") actions iso idTs
  refine ⟨_, _, _, _, rfl, ?_, hast, hasev, ?_, ?_, ?_⟩
  · rw [dget_fst_upsert_ncr (aset _ "action_id" _) _ _ _ _
        (by decide : "status" ≠ "updated_at"),
      withNcrDefaults_noop_of_facts _ _ _ _ hnid hnst hncrea,
      dget_aset_ne _ _ _ _ (by decide : "action_id" ≠ "status")]
    exact hnst
  · rw [harel, dget_fst_upsert_ncr (aset _ "action_id" _) _ _ _ _
        (by decide : "ncr_id" ≠ "updated_at"),
      withNcrDefaults_noop_of_facts _ _ _ _ hnid hnst hncrea,
      dget_aset_ne _ _ _ _ (by decide : "action_id" ≠ "ncr_id")]
    rfl
  · rw [dget_fst_upsert_ncr (aset _ "action_id" _) _ _ _ _
        (by decide : "action_id" ≠ "updated_at"),
      withNcrDefaults_noop_of_facts _ _ _ _ hnid hnst hncrea,
      dget_aset_self]
  · intro a acts iso2 idTs2 h
    rw [dget_fst_upsert_action _ _ _ _ _ (by decide : "severity" ≠ "updated_at")]
    exact dget_withActionDefaults_severity_none a iso2 idTs2 h

/-- Witness for C5: the Medium severity default, extracted from the claim
theorem, applied at a record with no severity key and discharged concretely. -/
theorem claim_C5_witness :
    dgetJ (upsert_action [("action_id", J.str "A-9"), ("title", J.str "t")] []
      "2026-01-02 03:04:05" "20260102-030405").1 "severity" = J.str "Medium" ∧
    dgetJ (create_ncr_and_action "Bad weld" "d" "High" "own" "cb" "" "" "" "" [] []
      "2026-01-02 03:04:05" "20260102-030405").1.1 "status" = J.str "Open" := by
  obtain ⟨ncr, action, n2, a2, heq, h1, h2, h3, h4, h5, h6⟩ :=
    claim_C5_create_linked_cross_links "Bad weld" "d" "High" "own" "cb" "" "" "" "" [] []
      "2026-01-02 03:04:05" "20260102-030405"
  constructor
  · exact h6 _ _ _ _ (by decide)
  · rw [heq]
    exact h1

/-- C6 counterexample: the claim says fields omitted from the new record
survive the merge untouched, but upserting a record that omits status over a
stored entry with status Blocked resets that status to Open, because
upsert_action setdefaults status into the new record before merging. -/
theorem claim_C6_counterexample :
    alookup ([("action_id", J.str "A-1"), ("title", J.str "t")] : Dict) "status" = none ∧
    dgetJ ((upsert_action [("action_id", J.str "A-1"), ("title", J.str "t")]
        [[("action_id", J.str "A-1"), ("status", J.str "Blocked"), ("owner", J.str "bob")]]
        "2026-01-02 03:04:05" "20260102-030405").2.getD 0 []) "status" = J.str "Open" ∧
    dgetJ [("action_id", J.str "A-1"), ("status", J.str "Blocked"), ("owner", J.str "bob")]
      "status" = J.str "Blocked" ∧
    (upsert_action [("action_id", J.str "A-1"), ("title", J.str "t")]
        [[("action_id", J.str "A-1"), ("status", J.str "Blocked"), ("owner", J.str "bob")]]
        "2026-01-02 03:04:05" "20260102-030405").2.length = 1 := by
  decide

/-- C6 (amended): upserting an action whose id matches a stored entry replaces
that entry in place with the shallow merge of the default-completed new record
over the old entry, stamps updated_at, and keeps the list length; fields
absent from the default-completed record survive untouched, while fields it
carries (including the six setdefault-filled ones: type, severity, status,
created_at, notes, related) overwrite the stored values; with no matching id
(no id or a novel one) exactly one entry is appended with updated_at stamped. -/
theorem claim_C6_upsert_replace_or_append (rec old : Dict) (pre post store : List Dict)
    (iso idTs : String) :
    ((dgetJ rec "action_id").truthy = true →
     (∀ a ∈ pre, dgetJ a "action_id" ≠ dgetJ rec "action_id") →
     dgetJ old "action_id" = dgetJ rec "action_id" →
     ((upsert_action rec (pre ++ old :: post) iso idTs).2 =
        pre ++ aset (dmerge old (withActionDefaults rec iso idTs)) "updated_at"
          (.str iso) :: post ∧
      (upsert_action rec (pre ++ old :: post) iso idTs).2.length =
        (pre ++ old :: post).length ∧
      (∀ k, k ≠ "updated_at" → alookup (withActionDefaults rec iso idTs) k = none →
        alookup (aset (dmerge old (withActionDefaults rec iso idTs)) "updated_at"
          (.str iso)) k = alookup old k) ∧
      (∀ k v, k ≠ "updated_at" → alookup (withActionDefaults rec iso idTs) k = some v →
        alookup (aset (dmerge old (withActionDefaults rec iso idTs)) "updated_at"
          (.str iso)) k = some v) ∧
      alookup (aset (dmerge old (withActionDefaults rec iso idTs)) "updated_at"
        (.str iso)) "updated_at" = some (.str iso))) ∧
    ((∀ a ∈ store, dgetJ a "action_id" ≠
        dgetJ (withActionDefaults rec iso idTs) "action_id") →
     ((upsert_action rec store iso idTs).2 =
        store ++ [aset (withActionDefaults rec iso idTs) "updated_at" (.str iso)] ∧
      (upsert_action rec store iso idTs).2.length = store.length + 1 ∧
      alookup (aset (withActionDefaults rec iso idTs) "updated_at" (.str iso))
        "updated_at" = some (.str iso))) := by
  constructor
  · intro hid hpre hold
    have hidD : dgetJ (withActionDefaults rec iso idTs) "action_id" =
        dgetJ rec "action_id" := dget_withActionDefaults_action_id rec iso idTs hid
    have hf := upsertEntries_found "action_id" (withActionDefaults rec iso idTs) iso
      pre post old (fun a ha => by rw [hidD]; exact hpre a ha)
      (by rw [hidD]; exact hold)
    have he : (upsert_action rec (pre ++ old :: post) iso idTs).2 =
        pre ++ aset (dmerge old (withActionDefaults rec iso idTs)) "updated_at"
          (.str iso) :: post := by
      simp only [upsert_action, hf, eq_self_iff_true, if_true]
    refine ⟨he, ?_, ?_, ?_, ?_⟩
    · rw [he]
      simp
    · intro k hk hnone
      rw [alookup_aset_ne _ _ _ _ (Ne.symm hk), alookup_dmerge]
      cases ho : alookup old k <;> simp [ho, hnone]
    · intro k v hk hsome
      rw [alookup_aset_ne _ _ _ _ (Ne.symm hk), alookup_dmerge]
      cases ho : alookup old k <;> simp [ho, hsome]
    · exact alookup_aset_self _ _ _
  · intro hnall
    have hnf := upsertEntries_not_found "action_id" (withActionDefaults rec iso idTs)
      iso store hnall
    have he : (upsert_action rec store iso idTs).2 =
        store ++ [aset (withActionDefaults rec iso idTs) "updated_at" (.str iso)] := by
      simp only [upsert_action, hnf, Bool.false_eq_true, if_false]
    refine ⟨he, ?_, alookup_aset_self _ _ _⟩
    rw [he]
    simp

/-- C7: every record created by the entry workflow's submit is appended as the
last row of the saved table with both approval sub-records Pending and empty
actor and time fields, for any canonical column list, prior table, and form
inputs. -/
theorem claim_C7_new_record_both_pending (C : List String) (df : DF)
    (id date time shift line machine part tool reason : String) (downtime : Int)
    (cost : Val) (user : String) (defectVar : Bool) (defectQty : Int) (sortVar : Bool)
    (defectReason : String) :
    ∃ rest lastRow,
      (submit_saved_df C df (submit_new_row id date time shift line machine part tool
        reason downtime cost user defectVar defectQty sortVar defectReason)).rows =
        rest ++ [lastRow] ∧
      cellD lastRow "Quality_Verified" = .str "Pending" ∧
      cellD lastRow "Quality_User" = .str "" ∧
      cellD lastRow "Quality_Time" = .str "" ∧
      cellD lastRow "Leader_Sign" = .str "Pending" ∧
      cellD lastRow "Leader_User" = .str "" ∧
      cellD lastRow "Leader_Time" = .str "" := by
  obtain ⟨rest, lastRow, hrows, hcell⟩ := submit_last_row C df
    (submit_new_row id date time shift line machine part tool reason downtime cost
      user defectVar defectQty sortVar defectReason)
  refine ⟨rest, lastRow, hrows, ?_, ?_, ?_, ?_, ?_, ?_⟩
  · rw [hcell "Quality_Verified" (by simp [submit_new_row])]
    rfl
  · rw [hcell "Quality_User" (by simp [submit_new_row])]
    rfl
  · rw [hcell "Quality_Time" (by simp [submit_new_row])]
    rfl
  · rw [hcell "Leader_Sign" (by simp [submit_new_row])]
    rfl
  · rw [hcell "Leader_User" (by simp [submit_new_row])]
    rfl
  · rw [hcell "Leader_Time" (by simp [submit_new_row])]
    rfl

/-- C8: on a well-formed table carrying the approval columns, whenever some
row matches the selected identifier, quality verification and leader sign-off
each succeed, stamp the flag to Yes, the non-empty acting user, and a
timestamp the parser accepts, and leave the other approval sub-record of every
matching row untouched. -/
theorem claim_C8_stamp_and_frame (C : List String) (selId user : String)
    (t : DateTime) (df : DF) (hWF : WF df) (huser : user ≠ "")
    (hy : t.year < 10000) (hmo : t.month < 100) (hd : t.day < 100)
    (hh : t.hour < 100) (hmi : t.minute < 100) (hs : t.second < 100)
    (hq1 : "Quality_Verified" ∈ df.cols) (hq2 : "Quality_User" ∈ df.cols)
    (hq3 : "Quality_Time" ∈ df.cols) (hl1 : "Leader_Sign" ∈ df.cols)
    (hl2 : "Leader_User" ∈ df.cols) (hl3 : "Leader_Time" ∈ df.cols)
    (hfound : df.rows.any (rowMatches selId) = true) :
    ∃ d1 d2, verify_selected C selId user t df = some d1 ∧
      sign_selected C selId user t df = some d2 ∧
      parseTs (fmtTs t) = some t ∧
      d1.rows.length = df.rows.length ∧ d2.rows.length = df.rows.length ∧
      (∀ i, i < df.rows.length → rowMatches selId (df.rows.getD i []) = true →
        cellD (d1.rows.getD i []) "Quality_Verified" = .str "Yes" ∧
        cellD (d1.rows.getD i []) "Quality_User" = .str user ∧
        cellD (d1.rows.getD i []) "Quality_User" ≠ .str "" ∧
        cellD (d1.rows.getD i []) "Quality_Time" = .str (fmtTs t) ∧
        cellD (d1.rows.getD i []) "Leader_Sign" =
          cellD (df.rows.getD i []) "Leader_Sign" ∧
        cellD (d1.rows.getD i []) "Leader_User" =
          cellD (df.rows.getD i []) "Leader_User" ∧
        cellD (d1.rows.getD i []) "Leader_Time" =
          cellD (df.rows.getD i []) "Leader_Time") ∧
      (∀ i, i < df.rows.length → rowMatches selId (df.rows.getD i []) = true →
        cellD (d2.rows.getD i []) "Leader_Sign" = .str "Yes" ∧
        cellD (d2.rows.getD i []) "Leader_User" = .str user ∧
        cellD (d2.rows.getD i []) "Leader_User" ≠ .str "" ∧
        cellD (d2.rows.getD i []) "Leader_Time" = .str (fmtTs t) ∧
        cellD (d2.rows.getD i []) "Quality_Verified" =
          cellD (df.rows.getD i []) "Quality_Verified" ∧
        cellD (d2.rows.getD i []) "Quality_User" =
          cellD (df.rows.getD i []) "Quality_User" ∧
        cellD (d2.rows.getD i []) "Quality_Time" =
          cellD (df.rows.getD i []) "Quality_Time") := by
  have hkeysQ : ∀ k ∈ ([("Quality_Verified", Val.str "Yes"), ("Quality_User", Val.str user),
      ("Quality_Time", Val.str (fmtTs t))].map Prod.fst), k ∈ df.cols := by
    intro k hk
    simp only [List.map_cons, List.map_nil, List.mem_cons, List.not_mem_nil,
      or_false] at hk
    rcases hk with rfl | rfl | rfl
    · exact hq1
    · exact hq2
    · exact hq3
  have hkeysL : ∀ k ∈ ([("Leader_Sign", Val.str "Yes"), ("Leader_User", Val.str user),
      ("Leader_Time", Val.str (fmtTs t))].map Prod.fst), k ∈ df.cols := by
    intro k hk
    simp only [List.map_cons, List.map_nil, List.mem_cons, List.not_mem_nil,
      or_false] at hk
    rcases hk with rfl | rfl | rfl
    · exact hl1
    · exact hl2
    · exact hl3
  obtain ⟨hlen1, hcell1⟩ := stamp_cells C df (rowMatches selId)
    [("Quality_Verified", Val.str "Yes"), ("Quality_User", Val.str user),
     ("Quality_Time", Val.str (fmtTs t))] hWF hkeysQ
  obtain ⟨hlen2, hcell2⟩ := stamp_cells C df (rowMatches selId)
    [("Leader_Sign", Val.str "Yes"), ("Leader_User", Val.str user),
     ("Leader_Time", Val.str (fmtTs t))] hWF hkeysL
  refine ⟨ensure_df_schema C (locSet df (rowMatches selId)
      [("Quality_Verified", Val.str "Yes"), ("Quality_User", Val.str user),
       ("Quality_Time", Val.str (fmtTs t))]),
    ensure_df_schema C (locSet df (rowMatches selId)
      [("Leader_Sign", Val.str "Yes"), ("Leader_User", Val.str user),
       ("Leader_Time", Val.str (fmtTs t))]),
    by simp only [verify_selected, hfound, if_true],
    by simp only [sign_selected, hfound, if_true],
    parseTs_fmtTs t hy hmo hd hh hmi hs, hlen1, hlen2, ?_, ?_⟩
  · intro i hi hm
    refine ⟨?_, ?_, ?_, ?_, ?_, ?_, ?_⟩
    · rw [hcell1 i hi "Quality_Verified" hq1, hm]
      rfl
    · rw [hcell1 i hi "Quality_User" hq2, hm]
      rfl
    · rw [hcell1 i hi "Quality_User" hq2, hm]
      show Val.str user ≠ Val.str ""
      intro he
      injection he with he2
      exact huser he2
    · rw [hcell1 i hi "Quality_Time" hq3, hm]
      rfl
    · rw [hcell1 i hi "Leader_Sign" hl1, hm]
      rfl
    · rw [hcell1 i hi "Leader_User" hl2, hm]
      rfl
    · rw [hcell1 i hi "Leader_Time" hl3, hm]
      rfl
  · intro i hi hm
    refine ⟨?_, ?_, ?_, ?_, ?_, ?_, ?_⟩
    · rw [hcell2 i hi "Leader_Sign" hl1, hm]
      rfl
    · rw [hcell2 i hi "Leader_User" hl2, hm]
      rfl
    · rw [hcell2 i hi "Leader_User" hl2, hm]
      show Val.str user ≠ Val.str ""
      intro he
      injection he with he2
      exact huser he2
    · rw [hcell2 i hi "Leader_Time" hl3, hm]
      rfl
    · rw [hcell2 i hi "Quality_Verified" hq1, hm]
      rfl
    · rw [hcell2 i hi "Quality_User" hq2, hm]
      rfl
    · rw [hcell2 i hi "Quality_Time" hq3, hm]
      rfl

/-- Witness for C8 at a one-row concrete table. -/
theorem claim_C8_witness :
    ∃ d1, verify_selected ["ID", "Quality_Verified", "Quality_User", "Quality_Time",
        "Leader_Sign", "Leader_User", "Leader_Time"] "1" "alice" ⟨2026, 1, 2, 3, 4, 5⟩
        ⟨["ID", "Quality_Verified", "Quality_User", "Quality_Time", "Leader_Sign",
          "Leader_User", "Leader_Time"],
         [[("ID", Val.str "1"), ("Quality_Verified", Val.str "Pending"),
           ("Quality_User", Val.str ""), ("Quality_Time", Val.str ""),
           ("Leader_Sign", Val.str "Pending"), ("Leader_User", Val.str ""),
           ("Leader_Time", Val.str "")]]⟩ = some d1 ∧
      cellD (d1.rows.getD 0 []) "Quality_Verified" = Val.str "Yes" ∧
      cellD (d1.rows.getD 0 []) "Leader_Sign" = Val.str "Pending" := by
  obtain ⟨d1, d2, hv, hsg, hp, hn1, hn2, hc1, hc2⟩ :=
    claim_C8_stamp_and_frame ["ID", "Quality_Verified", "Quality_User", "Quality_Time",
      "Leader_Sign", "Leader_User", "Leader_Time"] "1" "alice" ⟨2026, 1, 2, 3, 4, 5⟩
      ⟨["ID", "Quality_Verified", "Quality_User", "Quality_Time", "Leader_Sign",
        "Leader_User", "Leader_Time"],
       [[("ID", Val.str "1"), ("Quality_Verified", Val.str "Pending"),
         ("Quality_User", Val.str ""), ("Quality_Time", Val.str ""),
         ("Leader_Sign", Val.str "Pending"), ("Leader_User", Val.str ""),
         ("Leader_Time", Val.str "")]]⟩
      (by unfold WF; decide) (by decide) (by decide) (by decide) (by decide)
      (by decide) (by decide) (by decide) (by decide) (by decide) (by decide)
      (by decide) (by decide) (by decide) (by decide)
  obtain ⟨e1, _, _, _, e5, _, _⟩ := hc1 0 (by decide) (by decide)
  refine ⟨d1, hv, e1, ?_⟩
  rw [e5]
  rfl

/-- C10: when two or more rows carry the selected identifier, both the quality
verification and the leader sign-off stamp the flag, actor, and timestamp on
every matching row of the saved table, not on a single one. -/
theorem claim_C10_duplicate_ids_all_stamped (C : List String) (selId user : String)
    (t : DateTime) (df : DF) (hWF : WF df)
    (hq1 : "Quality_Verified" ∈ df.cols) (hq2 : "Quality_User" ∈ df.cols)
    (hq3 : "Quality_Time" ∈ df.cols) (hl1 : "Leader_Sign" ∈ df.cols)
    (hl2 : "Leader_User" ∈ df.cols) (hl3 : "Leader_Time" ∈ df.cols)
    (hdup : 2 ≤ df.rows.countP (rowMatches selId)) :
    ∃ d1 d2, verify_selected C selId user t df = some d1 ∧
      sign_selected C selId user t df = some d2 ∧
      2 ≤ df.rows.countP (rowMatches selId) ∧
      (∀ i, i < df.rows.length → rowMatches selId (df.rows.getD i []) = true →
        cellD (d1.rows.getD i []) "Quality_Verified" = .str "Yes" ∧
        cellD (d1.rows.getD i []) "Quality_User" = .str user ∧
        cellD (d1.rows.getD i []) "Quality_Time" = .str (fmtTs t)) ∧
      (∀ i, i < df.rows.length → rowMatches selId (df.rows.getD i []) = true →
        cellD (d2.rows.getD i []) "Leader_Sign" = .str "Yes" ∧
        cellD (d2.rows.getD i []) "Leader_User" = .str user ∧
        cellD (d2.rows.getD i []) "Leader_Time" = .str (fmtTs t)) := by
  have hfound : df.rows.any (rowMatches selId) = true := by
    rw [List.any_eq_true]
    have hpos : 0 < df.rows.countP (rowMatches selId) :=
      lt_of_lt_of_le (by norm_num) hdup
    exact List.countP_pos_iff.mp hpos
  have hkeysQ : ∀ k ∈ ([("Quality_Verified", Val.str "Yes"), ("Quality_User", Val.str user),
      ("Quality_Time", Val.str (fmtTs t))].map Prod.fst), k ∈ df.cols := by
    intro k hk
    simp only [List.map_cons, List.map_nil, List.mem_cons, List.not_mem_nil,
      or_false] at hk
    rcases hk with rfl | rfl | rfl
    · exact hq1
    · exact hq2
    · exact hq3
  have hkeysL : ∀ k ∈ ([("Leader_Sign", Val.str "Yes"), ("Leader_User", Val.str user),
      ("Leader_Time", Val.str (fmtTs t))].map Prod.fst), k ∈ df.cols := by
    intro k hk
    simp only [List.map_cons, List.map_nil, List.mem_cons, List.not_mem_nil,
      or_false] at hk
    rcases hk with rfl | rfl | rfl
    · exact hl1
    · exact hl2
    · exact hl3
  obtain ⟨hlen1, hcell1⟩ := stamp_cells C df (rowMatches selId)
    [("Quality_Verified", Val.str "Yes"), ("Quality_User", Val.str user),
     ("Quality_Time", Val.str (fmtTs t))] hWF hkeysQ
  obtain ⟨hlen2, hcell2⟩ := stamp_cells C df (rowMatches selId)
    [("Leader_Sign", Val.str "Yes"), ("Leader_User", Val.str user),
     ("Leader_Time", Val.str (fmtTs t))] hWF hkeysL
  refine ⟨ensure_df_schema C (locSet df (rowMatches selId)
      [("Quality_Verified", Val.str "Yes"), ("Quality_User", Val.str user),
       ("Quality_Time", Val.str (fmtTs t))]),
    ensure_df_schema C (locSet df (rowMatches selId)
      [("Leader_Sign", Val.str "Yes"), ("Leader_User", Val.str user),
       ("Leader_Time", Val.str (fmtTs t))]),
    by simp only [verify_selected, hfound, if_true],
    by simp only [sign_selected, hfound, if_true], hdup, ?_, ?_⟩
  · intro i hi hm
    refine ⟨?_, ?_, ?_⟩
    · rw [hcell1 i hi "Quality_Verified" hq1, hm]
      rfl
    · rw [hcell1 i hi "Quality_User" hq2, hm]
      rfl
    · rw [hcell1 i hi "Quality_Time" hq3, hm]
      rfl
  · intro i hi hm
    refine ⟨?_, ?_, ?_⟩
    · rw [hcell2 i hi "Leader_Sign" hl1, hm]
      rfl
    · rw [hcell2 i hi "Leader_User" hl2, hm]
      rfl
    · rw [hcell2 i hi "Leader_Time" hl3, hm]
      rfl

/-- Witness for C10 at a concrete table with two rows sharing the same ID:
both rows of the saved table are stamped. -/
theorem claim_C10_witness :
    ∃ d1, verify_selected ["ID", "Quality_Verified", "Quality_User", "Quality_Time",
        "Leader_Sign", "Leader_User", "Leader_Time"] "1" "alice" ⟨2026, 1, 2, 3, 4, 5⟩
        ⟨["ID", "Quality_Verified", "Quality_User", "Quality_Time", "Leader_Sign",
          "Leader_User", "Leader_Time"],
         [[("ID", Val.str "1"), ("Quality_Verified", Val.str "Pending"),
           ("Quality_User", Val.str ""), ("Quality_Time", Val.str ""),
           ("Leader_Sign", Val.str "Pending"), ("Leader_User", Val.str ""),
           ("Leader_Time", Val.str "")],
          [("ID", Val.str "1"), ("Quality_Verified", Val.str "Pending"),
           ("Quality_User", Val.str ""), ("Quality_Time", Val.str ""),
           ("Leader_Sign", Val.str "Pending"), ("Leader_User", Val.str ""),
           ("Leader_Time", Val.str "")]]⟩ = some d1 ∧
      cellD (d1.rows.getD 0 []) "Quality_Verified" = Val.str "Yes" ∧
      cellD (d1.rows.getD 1 []) "Quality_Verified" = Val.str "Yes" := by
  obtain ⟨d1, d2, hv, hsg, hcnt, hc1, hc2⟩ :=
    claim_C10_duplicate_ids_all_stamped ["ID", "Quality_Verified", "Quality_User",
      "Quality_Time", "Leader_Sign", "Leader_User", "Leader_Time"] "1" "alice"
      ⟨2026, 1, 2, 3, 4, 5⟩
      ⟨["ID", "Quality_Verified", "Quality_User", "Quality_Time", "Leader_Sign",
        "Leader_User", "Leader_Time"],
       [[("ID", Val.str "1"), ("Quality_Verified", Val.str "Pending"),
         ("Quality_User", Val.str ""), ("Quality_Time", Val.str ""),
         ("Leader_Sign", Val.str "Pending"), ("Leader_User", Val.str ""),
         ("Leader_Time", Val.str "")],
        [("ID", Val.str "1"), ("Quality_Verified", Val.str "Pending"),
         ("Quality_User", Val.str ""), ("Quality_Time", Val.str ""),
         ("Leader_Sign", Val.str "Pending"), ("Leader_User", Val.str ""),
         ("Leader_Time", Val.str "")]]⟩
      (by unfold WF; decide) (by decide) (by decide) (by decide) (by decide)
      (by decide) (by decide) (by decide)
  exact ⟨d1, hv, (hc1 0 (by decide) (by decide)).1, (hc1 1 (by decide) (by decide)).1⟩

/-- Witness for C6 at concrete inputs: an in-place replacement keeps length 1,
and an append on a no-id record extends length to 2. -/
theorem claim_C6_witness :
    (upsert_action [("action_id", J.str "A-1"), ("severity", J.str "High")]
      ([] ++ [("action_id", J.str "A-1"), ("owner", J.str "bob")] :: [])
      "2026-01-02 03:04:05" "20260102-030405").2.length =
      ([] ++ [("action_id", J.str "A-1"), ("owner", J.str "bob")] :: []).length ∧
    (upsert_action [("title", J.str "x")]
      [[("action_id", J.str "A-1"), ("owner", J.str "bob")]]
      "2026-01-02 03:04:05" "20260102-030405").2.length = 2 := by
  constructor
  · exact ((claim_C6_upsert_replace_or_append
      [("action_id", J.str "A-1"), ("severity", J.str "High")]
      [("action_id", J.str "A-1"), ("owner", J.str "bob")] [] [] []
      "2026-01-02 03:04:05" "20260102-030405").1 (by decide) (by simp) (by decide)).2.1
  · exact ((claim_C6_upsert_replace_or_append [("title", J.str "x")] [] [] []
      [[("action_id", J.str "A-1"), ("owner", J.str "bob")]]
      "2026-01-02 03:04:05" "20260102-030405").2 (by decide)).2.1

end ToolLife
